import Mathlib

/-!
# A shallow embedding of the tinkv storage engine (iFaceless/tinkv)

This file models the core of the tinkv Bitcask-style key-value store:
the CRC-32/IEEE checksum (src/util/misc.rs), data-file records and their
bincode sizes (src/segment/data.rs), the in-memory keydir, the `Store`
operations `set`/`get`/`remove`/`compact` (src/store.rs), hint files
(src/segment/hint.rs), recovery (`Store::build_keydir`) and reopening.

Modelling conventions:
* byte strings are `List Nat` (each element a byte value);
* machine integers are `Nat` (no arithmetic in the source overflows at
  the sizes the claims quantify over);
* a data file on disk is the list of records it contains, in append
  order; byte offsets are recovered from the bincode-encoded sizes;
* fallible operations return `Except TinkvError`; a Rust `panic!` /
  `expect` is a distinguished result (`Option` none, or a dedicated
  constructor), never an `Except` error.
-/

/-! ## CRC-32/IEEE (src/util/misc.rs `checksum`, via crc::crc32::checksum_ieee) -/

/-- One shift-and-conditionally-xor round of the reflected CRC-32/IEEE
polynomial 0xEDB88320. -/
def crc32Round (c : Nat) : Nat :=
  if c % 2 = 1 then Nat.xor (c / 2) 0xEDB88320 else c / 2

/-- Feed one byte into a CRC-32 accumulator. -/
def crc32Byte (c b : Nat) : Nat :=
  crc32Round^[8] (Nat.xor c b)

/-- Fold a byte list into a CRC-32 accumulator. -/
def crc32Aux (c : Nat) : List Nat → Nat
  | [] => c
  | b :: bs => crc32Aux (crc32Byte c b) bs

/-- `checksum data` — CRC-32/IEEE of `data`, as computed by
`util::checksum` in the source (crc crate, `checksum_ieee`). -/
def checksum (data : List Nat) : Nat :=
  Nat.xor (crc32Aux 0xFFFFFFFF data) 0xFFFFFFFF

/-- Alias for `checksum`, usable where the record field of the same
name shadows the utility function. -/
abbrev crcBytes (data : List Nat) : Nat := checksum data

/-! ## Constants (src/config.rs) -/

/-- The reserved tombstone value `%TINKV_REMOVE_TOMESTOME%` (24 ASCII bytes). -/
def REMOVE_TOMESTONE : List Nat :=
  [37, 84, 73, 78, 75, 86, 95, 82, 69, 77, 79, 86, 69, 95,
   84, 79, 77, 69, 83, 84, 79, 77, 69, 37]

/-- Bytes of the data-file suffix `.tinkv.data`. -/
def dataSuffixBytes : List Nat :=
  [46, 116, 105, 110, 107, 118, 46, 100, 97, 116, 97]

/-- `DEFAULT_MAX_DATA_FILE_SIZE` (1024 * 1024 * 1024 bytes). -/
def DEFAULT_MAX_DATA_FILE_SIZE : Nat := 1024 * 1024 * 1024

/-- `DEFAULT_MAX_KEY_SIZE` (64 bytes). -/
def DEFAULT_MAX_KEY_SIZE : Nat := 64

/-- `DEFAULT_MAX_VALUE_SIZE` (65536 bytes). -/
def DEFAULT_MAX_VALUE_SIZE : Nat := 65536

/-! ## Data-file records (src/segment/data.rs `InnerEntry`) -/

/-- `InnerEntry`: the record serialized into a data file.  `timestamp`
is nanoseconds in the source (u128); its value never matters to the
claims, only its fixed 16-byte encoding. -/
structure InnerEntry where
  key : List Nat
  value : List Nat
  timestamp : Nat
  checksum : Nat
deriving DecidableEq, Repr

namespace InnerEntry

/-- `InnerEntry::fresh_checksum`: the CRC-32 the source computes, over
the concatenation `[key, value].concat()`. -/
def fresh_checksum (e : InnerEntry) : Nat :=
  crcBytes (e.key ++ e.value)

/-- `InnerEntry::new key value timestamp` — checksum filled in from
`fresh_checksum`. -/
def new (k v : List Nat) (ts : Nat) : InnerEntry :=
  let e : InnerEntry := ⟨k, v, ts, 0⟩
  { e with checksum := e.fresh_checksum }

/-- `InnerEntry::is_valid`: stored checksum equals the recomputed one. -/
def is_valid (e : InnerEntry) : Bool :=
  e.checksum == e.fresh_checksum

/-- Size in bytes of the bincode encoding of a record (default bincode
options: `u64` length prefix + bytes for each `Vec<u8>`, 16 bytes for
the `u128` timestamp, 4 bytes for the `u32` checksum). -/
def encodedSize (e : InnerEntry) : Nat :=
  8 + e.key.length + 8 + e.value.length + 16 + 4

theorem encodedSize_pos (e : InnerEntry) : 0 < e.encodedSize := by
  simp only [encodedSize]
  omega

@[simp] theorem new_key (k v : List Nat) (ts : Nat) : (new k v ts).key = k := rfl

@[simp] theorem new_value (k v : List Nat) (ts : Nat) : (new k v ts).value = v := rfl

@[simp] theorem new_checksum (k v : List Nat) (ts : Nat) :
    (new k v ts).checksum = crcBytes (k ++ v) := rfl

@[simp] theorem new_is_valid (k v : List Nat) (ts : Nat) :
    (new k v ts).is_valid = true := by
  simp [is_valid, new, fresh_checksum]

@[simp] theorem encodedSize_new (k v : List Nat) (ts : Nat) :
    (new k v ts).encodedSize = 8 + k.length + 8 + v.length + 16 + 4 := rfl

end InnerEntry

/-! ## Association lists (HashMap of data files, BTreeMap keydir) -/

section AssocList

variable {κ : Type} {α : Type} [DecidableEq κ]

/-- Lookup in an association list (first matching key). -/
def alLookup (l : List (κ × α)) (k : κ) : Option α :=
  match l with
  | [] => none
  | (k', v) :: t => if k = k' then some v else alLookup t k

/-- Insert/replace in an association list: replace the first binding of
`k` in place, else append at the end. -/
def alInsert (k : κ) (v : α) : List (κ × α) → List (κ × α)
  | [] => [(k, v)]
  | (k', v') :: t => if k = k' then (k, v) :: t else (k', v') :: alInsert k v t

/-- Remove all bindings of `k` (on nodup-key lists, the one binding). -/
def alRemove (k : κ) : List (κ × α) → List (κ × α)
  | [] => []
  | (k', v) :: t => if k' = k then alRemove k t else (k', v) :: alRemove k t

@[simp] theorem alLookup_nil (k : κ) : alLookup ([] : List (κ × α)) k = none := rfl

@[simp] theorem alLookup_cons (k k' : κ) (v : α) (t : List (κ × α)) :
    alLookup ((k', v) :: t) k = if k = k' then some v else alLookup t k := rfl

@[simp] theorem alLookup_alInsert_self (l : List (κ × α)) (k : κ) (v : α) :
    alLookup (alInsert k v l) k = some v := by
  induction l with
  | nil => simp [alInsert]
  | cons p t ih =>
    obtain ⟨k', v'⟩ := p
    by_cases h : k = k' <;> simp [alInsert, h, ih]

theorem alLookup_alInsert_ne (l : List (κ × α)) {k k' : κ} (v : α) (h : k' ≠ k) :
    alLookup (alInsert k v l) k' = alLookup l k' := by
  induction l with
  | nil => simp [alInsert, h]
  | cons p t ih =>
    obtain ⟨k₀, v₀⟩ := p
    by_cases hk : k = k₀
    · subst hk; simp [alInsert, h]
    · by_cases hk' : k' = k₀ <;> simp [alInsert, hk, hk', ih]

@[simp] theorem alLookup_alRemove_self (l : List (κ × α)) (k : κ) :
    alLookup (alRemove k l) k = none := by
  induction l with
  | nil => rfl
  | cons p t ih =>
    obtain ⟨k₀, v₀⟩ := p
    by_cases h : k₀ = k
    · simpa [alRemove, h] using ih
    · simpa [alRemove, alLookup, h, Ne.symm h] using ih

theorem alLookup_alRemove_ne (l : List (κ × α)) {k k' : κ} (h : k' ≠ k) :
    alLookup (alRemove k l) k' = alLookup l k' := by
  induction l with
  | nil => rfl
  | cons p t ih =>
    obtain ⟨k₀, v₀⟩ := p
    by_cases h₀ : k₀ = k
    · subst h₀; simp [alRemove, alLookup, h, ih]
    · by_cases h₁ : k' = k₀ <;> simp [alRemove, alLookup, h₀, h₁, ih]

theorem alLookup_append (l₁ l₂ : List (κ × α)) (k : κ) :
    alLookup (l₁ ++ l₂) k =
      match alLookup l₁ k with
      | some v => some v
      | none => alLookup l₂ k := by
  induction l₁ with
  | nil => simp
  | cons p t ih =>
    obtain ⟨k₀, v₀⟩ := p
    by_cases h : k = k₀ <;> simp [alLookup, h, ih]

/-- A key is in the projection of an association list iff lookup succeeds. -/
theorem alLookup_isSome_iff_mem (l : List (κ × α)) (k : κ) :
    (alLookup l k).isSome ↔ k ∈ l.map Prod.fst := by
  induction l with
  | nil => simp
  | cons p t ih =>
    obtain ⟨k₀, v₀⟩ := p
    by_cases h : k = k₀ <;> simp [alLookup, h, ih]

theorem alInsert_of_not_mem {l : List (κ × α)} {k : κ} (v : α)
    (h : k ∉ l.map Prod.fst) : alInsert k v l = l ++ [(k, v)] := by
  induction l with
  | nil => rfl
  | cons p t ih =>
    obtain ⟨k₀, v₀⟩ := p
    have h1 : ¬ k = k₀ := fun hh => h (by simp [hh])
    have h2 : k ∉ t.map Prod.fst := fun hm => h (by simp [hm])
    simp [alInsert, h1, ih h2]

theorem length_alInsert_of_isSome {l : List (κ × α)} {k : κ} (v : α)
    (h : (alLookup l k).isSome) : (alInsert k v l).length = l.length := by
  induction l with
  | nil => simp [alLookup] at h
  | cons p t ih =>
    obtain ⟨k₀, v₀⟩ := p
    by_cases hk : k = k₀
    · simp [alInsert, hk]
    · simp [alLookup, hk] at h
      simp [alInsert, hk, ih h]

theorem length_alInsert_of_none {l : List (κ × α)} {k : κ} (v : α)
    (h : alLookup l k = none) : (alInsert k v l).length = l.length + 1 := by
  induction l with
  | nil => rfl
  | cons p t ih =>
    obtain ⟨k₀, v₀⟩ := p
    by_cases hk : k = k₀
    · simp [alLookup, hk] at h
    · simp [alLookup, hk] at h
      simp [alInsert, hk, ih h]

/-- If every key of `l` differs from `k`, removing `k` is the identity. -/
theorem alRemove_of_not_mem {l : List (κ × α)} {k : κ}
    (h : k ∉ l.map Prod.fst) : alRemove k l = l := by
  induction l with
  | nil => rfl
  | cons p t ih =>
    obtain ⟨k₀, v₀⟩ := p
    have h1 : ¬ k₀ = k := fun hh => h (by simp [hh])
    have h2 : k ∉ t.map Prod.fst := fun hm => h (by simp [hm])
    simp [alRemove, h1, ih h2]

theorem length_alRemove_add_one {l : List (κ × α)} {k : κ}
    (hnd : (l.map Prod.fst).Nodup) (h : (alLookup l k).isSome) :
    (alRemove k l).length + 1 = l.length := by
  induction l with
  | nil => simp [alLookup] at h
  | cons p t ih =>
    obtain ⟨k₀, v₀⟩ := p
    rw [List.map_cons, List.nodup_cons] at hnd
    by_cases hk : k₀ = k
    · subst hk
      have ht : alRemove k₀ t = t := alRemove_of_not_mem hnd.1
      simp [alRemove, ht]
    · have hk' : ¬ k = k₀ := fun hh => hk hh.symm
      simp [alLookup, hk'] at h
      have ht := ih hnd.2 h
      simp [alRemove, hk]
      omega

/-- Keys after an insert: unchanged when the key was present, appended
otherwise. -/
theorem keys_alInsert (l : List (κ × α)) (k : κ) (v : α) :
    (alInsert k v l).map Prod.fst =
      if k ∈ l.map Prod.fst then l.map Prod.fst else l.map Prod.fst ++ [k] := by
  induction l with
  | nil => simp [alInsert]
  | cons p t ih =>
    obtain ⟨k₀, v₀⟩ := p
    by_cases hk : k = k₀
    · subst hk; simp [alInsert]
    · simp [alInsert, hk, ih]
      by_cases hm : k ∈ t.map Prod.fst <;> simp [hm, hk]

theorem nodup_keys_alInsert (l : List (κ × α)) (k : κ) (v : α)
    (h : (l.map Prod.fst).Nodup) : ((alInsert k v l).map Prod.fst).Nodup := by
  rw [keys_alInsert]
  by_cases hm : k ∈ l.map Prod.fst
  · simpa [hm] using h
  · simp [hm, List.nodup_append, h]

/-- Keys after a remove: the old keys with `k` filtered out. -/
theorem keys_alRemove (l : List (κ × α)) (k : κ) :
    (alRemove k l).map Prod.fst = (l.map Prod.fst).filter (fun x => x != k) := by
  induction l with
  | nil => rfl
  | cons p t ih =>
    obtain ⟨k₀, v₀⟩ := p
    by_cases hk : k₀ = k <;> simp [alRemove, hk, ih, List.filter_cons]

/-- Membership of a key in the remove-result. -/
theorem mem_keys_alRemove (l : List (κ × α)) (k k' : κ) :
    k' ∈ (alRemove k l).map Prod.fst ↔ k' ∈ l.map Prod.fst ∧ k' ≠ k := by
  rw [keys_alRemove]
  simp [List.mem_filter]

theorem nodup_keys_alRemove (l : List (κ × α)) (k : κ)
    (h : (l.map Prod.fst).Nodup) : ((alRemove k l).map Prod.fst).Nodup := by
  rw [keys_alRemove]
  exact h.filter _

end AssocList

/-! ## Data files as record lists; byte offsets (src/segment/data.rs) -/

/-- Total encoded size of a data file's records (`DataFile.size`). -/
def fileSize (f : List InnerEntry) : Nat :=
  (f.map InnerEntry.encodedSize).sum

@[simp] theorem fileSize_nil : fileSize [] = 0 := rfl

@[simp] theorem fileSize_append (f g : List InnerEntry) :
    fileSize (f ++ g) = fileSize f + fileSize g := by
  simp [fileSize]

/-- Decode the record starting at byte offset `tgt`, scanning from
offset `off`.  Mirrors `DataFile::read`: a seek to a record boundary
decodes that record; any other offset fails to decode. -/
def entryFrom (off : Nat) : List InnerEntry → Nat → Option InnerEntry
  | [], _ => none
  | e :: t, tgt => if tgt = off then some e else entryFrom (off + e.encodedSize) t tgt

/-- `DataFile::read offset` on a file holding records `f`. -/
def entryAt (f : List InnerEntry) (tgt : Nat) : Option InnerEntry :=
  entryFrom 0 f tgt

theorem entryFrom_none_of_le {f : List InnerEntry} {off tgt : Nat}
    (h : off + fileSize f ≤ tgt) : entryFrom off f tgt = none := by
  induction f generalizing off with
  | nil => rfl
  | cons e t ih =>
    have hpos := e.encodedSize_pos
    have h1 : ¬ tgt = off := by
      simp [fileSize] at h
      omega
    have h2 : (off + e.encodedSize) + fileSize t ≤ tgt := by
      simp [fileSize] at h ⊢
      omega
    simp [entryFrom, h1, ih h2]

/-- Appending one record to a file: reads at the old tail offset return
the new record, reads elsewhere are unchanged. -/
theorem entryFrom_append_one (f : List InnerEntry) (e : InnerEntry) (off tgt : Nat) :
    entryFrom off (f ++ [e]) tgt =
      if tgt = off + fileSize f then some e else entryFrom off f tgt := by
  induction f generalizing off with
  | nil => simp [entryFrom]
  | cons e₀ t ih =>
    have hpos := e₀.encodedSize_pos
    have hfs : fileSize (e₀ :: t) = e₀.encodedSize + fileSize t := by
      simp [fileSize]
    by_cases h : tgt = off
    · have hne : fileSize (e₀ :: t) ≠ 0 := by omega
      simp [entryFrom, h, hne]
    · have harith : off + e₀.encodedSize + fileSize t = off + fileSize (e₀ :: t) := by
        omega
      simp only [List.cons_append, entryFrom, h, if_false]
      have hih := ih (off + e₀.encodedSize)
      rw [harith] at hih
      exact hih

theorem entryAt_append_one (f : List InnerEntry) (e : InnerEntry) (tgt : Nat) :
    entryAt (f ++ [e]) tgt =
      if tgt = fileSize f then some e else entryAt f tgt := by
  simpa using entryFrom_append_one f e 0 tgt

@[simp] theorem entryAt_tail (f : List InnerEntry) (e : InnerEntry) :
    entryAt (f ++ [e]) (fileSize f) = some e := by
  simp [entryAt_append_one]

theorem entryAt_append_of_some {f : List InnerEntry} {tgt : Nat} {r : InnerEntry}
    (h : entryAt f tgt = some r) (e : InnerEntry) : entryAt (f ++ [e]) tgt = some r := by
  rw [entryAt_append_one]
  by_cases hb : tgt = fileSize f
  · exfalso
    have h' : entryFrom 0 f tgt = some r := h
    rw [hb] at h'
    rw [entryFrom_none_of_le (by omega)] at h'
    cases h'
  · simp [hb, h]

/-! ## Keydir, stats, config, hint entries (src/store.rs, src/segment/hint.rs) -/

/-- `KeyDirEntry` (src/store.rs): location of the latest record of a key. -/
structure KeyDirEntry where
  segment_id : Nat
  offset : Nat
  size : Nat
deriving DecidableEq, Repr

/-- `Stats` (src/store.rs). -/
structure Stats where
  size_of_stale_entries : Nat
  total_stale_entries : Nat
  total_active_entries : Nat
  total_data_files : Nat
  size_of_all_data_files : Nat
deriving DecidableEq, Repr

/-- `Stats::default()`. -/
def Stats.init : Stats := ⟨0, 0, 0, 0, 0⟩

/-- `Config` (src/store.rs). -/
structure Config where
  max_data_file_size : Nat
  max_key_size : Nat
  max_value_size : Nat
  sync : Bool
deriving DecidableEq, Repr

/-- `Config::default()` (src/config.rs defaults). -/
def Config.init : Config :=
  ⟨DEFAULT_MAX_DATA_FILE_SIZE, DEFAULT_MAX_KEY_SIZE, DEFAULT_MAX_VALUE_SIZE, false⟩

/-- Hint-file entry (src/segment/hint.rs `Entry`). -/
structure HintEntry where
  key : List Nat
  offset : Nat
  size : Nat
deriving DecidableEq, Repr

/-- The errors of `TinkvError` reachable in this model.  `Codec` stands
for the bincode / IO decode failures (`TinkvError::Codec`, `::Io`). -/
inductive TinkvError
  | KeyIsTooLarge
  | ValueIsTooLarge
  | KeyNotFound (key : List Nat)
  | DataEntryCorrupted (file_id : Nat) (key : List Nat) (offset : Nat)
  | Codec
deriving DecidableEq, Repr

/-- Result of `Store::get`: `Ok(Option<Vec<u8>>)`, an error, or the
panic the source reaches through `.expect(...)` when the keydir
references a segment id absent from `data_files`. -/
inductive GetResult
  | ok (v : Option (List Nat))
  | err (e : TinkvError)
  | panicMissingFile (segment_id : Nat)
deriving DecidableEq, Repr

/-- `keys().max().unwrap_or(&0)` over a list of ids. -/
def listMax (l : List Nat) : Nat := l.foldr max 0

theorem le_listMax {l : List Nat} {x : Nat} : x ∈ l → x ≤ listMax l := by
  induction l with
  | nil => intro h; cases h
  | cons y t ih =>
    intro h
    have hstep : listMax (y :: t) = max y (listMax t) := rfl
    rcases List.mem_cons.mp h with rfl | hm
    · rw [hstep]; exact le_max_left _ _
    · rw [hstep]; exact le_trans (ih hm) (le_max_right _ _)

/-! ## The Store (src/store.rs)

`files` plays the role both of the on-disk `*.tinkv.data` contents and
of the `data_files` handle map — the two coincide in every state the
claims observe (an empty compaction target that `Drop` unlinks stays in
the model as an empty record list, which recovery and reads treat
identically to an absent file). -/

structure Store where
  files : List (Nat × List InnerEntry)
  hints : List (Nat × List HintEntry)
  active_id : Nat
  keydir : List (List Nat × KeyDirEntry)
  stats : Stats
  config : Config
deriving DecidableEq, Repr

namespace Store

/-- The records of the active data file. -/
def activeFile (s : Store) : List InnerEntry :=
  (alLookup s.files s.active_id).getD []

/-- `Store::new_active_data_file`: register a fresh (empty) data file
and make it active.  `total_data_files` is bumped as in the source. -/
def new_active_data_file (s : Store) (fid : Option Nat) : Store :=
  let nid := fid.getD (listMax (s.files.map Prod.fst) + 1)
  { s with files := alInsert nid [] s.files,
           active_id := nid,
           stats := { s.stats with total_data_files := s.stats.total_data_files + 1 } }

/-- The offset/size information `DataFile::write` reports back. -/
structure WriteInfo where
  file_id : Nat
  offset : Nat
  size : Nat
deriving DecidableEq, Repr

/-- `Store::write`: roll the active file over when it exceeds
`max_data_file_size`, then append one freshly-checksummed record.
Appending cannot fail in the model (no IO errors; the active file is
writable by construction). -/
def write (s : Store) (k v : List Nat) (ts : Nat) : Store × WriteInfo :=
  let s₁ := if fileSize s.activeFile > s.config.max_data_file_size
            then s.new_active_data_file none else s
  let af := s₁.activeFile
  let r := InnerEntry.new k v ts
  let info : WriteInfo := ⟨s₁.active_id, fileSize af, r.encodedSize⟩
  ({ s₁ with files := alInsert s₁.active_id (af ++ [r]) s₁.files }, info)

/-- `Store::set`.  The size checks precede any mutation, so an error
return leaves the store unchanged, exactly as in the source. -/
def set (s : Store) (k v : List Nat) (ts : Nat) : Except TinkvError Store :=
  if k.length > s.config.max_key_size then .error .KeyIsTooLarge
  else if v.length > s.config.max_value_size then .error .ValueIsTooLarge
  else
    let p := s.write k v ts
    let s₁ := p.1
    let ent := p.2
    let old := alLookup s₁.keydir k
    let s₂ := { s₁ with keydir := alInsert k ⟨ent.file_id, ent.offset, ent.size⟩ s₁.keydir }
    let stats₂ :=
      match old with
      | none => { s₂.stats with total_active_entries := s₂.stats.total_active_entries + 1 }
      | some oldEnt =>
          { s₂.stats with
              size_of_stale_entries := s₂.stats.size_of_stale_entries + oldEnt.size,
              total_stale_entries := s₂.stats.total_stale_entries + 1 }
    .ok { s₂ with stats :=
      { stats₂ with size_of_all_data_files := stats₂.size_of_all_data_files + ent.size } }

/-- `Store::remove`: append a tombstone record, drop the keydir entry,
bump stale counters by `old.size + entry.size`. -/
def remove (s : Store) (k : List Nat) (ts : Nat) : Except TinkvError Store :=
  match alLookup s.keydir k with
  | some old =>
    let p := s.write k REMOVE_TOMESTONE ts
    let s₁ := p.1
    let ent := p.2
    .ok { s₁ with
      keydir := alRemove k s₁.keydir,
      stats := { s₁.stats with
        total_active_entries := s₁.stats.total_active_entries - 1,
        total_stale_entries := s₁.stats.total_stale_entries + 1,
        size_of_all_data_files := s₁.stats.size_of_all_data_files + ent.size,
        size_of_stale_entries := s₁.stats.size_of_stale_entries + old.size + ent.size } }
  | none => .error (.KeyNotFound k)

/-- `Store::get`: keydir miss is `Ok(None)`; a missing referenced
segment hits `.expect(...)` (modelled as `panicMissingFile`); a record
that does not decode is a codec error; an invalid checksum is
`DataEntryCorrupted` with the data file's id, the decoded record's key
and the read offset. -/
def get (s : Store) (k : List Nat) : GetResult :=
  match alLookup s.keydir k with
  | none => .ok none
  | some e =>
    match alLookup s.files e.segment_id with
    | none => .panicMissingFile e.segment_id
    | some f =>
      match entryAt f e.offset with
      | none => .err .Codec
      | some r =>
        if r.is_valid then .ok (some r.value)
        else .err (.DataEntryCorrupted e.segment_id r.key e.offset)

/-- `Store::keys`: ordered enumeration of the keydir (`BTreeMap` order:
lexicographic byte order). -/
def keys (s : Store) : List (List Nat) :=
  List.insertionSort (· ≤ ·) (s.keydir.map Prod.fst)

end Store

/-! ## Compaction (src/store.rs `Store::compact`) -/

/-- The copy loop of `Store::compact` over the keydir in `BTreeMap`
(key-sorted) order.  `copy_bytes_from` transfers `e.size` raw bytes
from the referenced location; the model requires that range to be
exactly one decodable record (which the store invariant guarantees) —
any other situation (missing file, undecodable or mis-sized range,
which in the source panics on `expect`/`assert_eq` or copies garbage)
is `none`. -/
def compactLoop (C : Nat) (files : List (Nat × List InnerEntry)) :
    List (List Nat × KeyDirEntry) → List InnerEntry →
    List (List Nat × KeyDirEntry) → List HintEntry →
    Option (List InnerEntry × List (List Nat × KeyDirEntry) × List HintEntry)
  | [], cfile, kd, hs => some (cfile, kd, hs)
  | (k, e) :: rest, cfile, kd, hs =>
    match alLookup files e.segment_id with
    | none => none
    | some f =>
      match entryAt f e.offset with
      | none => none
      | some r =>
        if r.encodedSize = e.size then
          let off := fileSize cfile
          compactLoop C files rest (cfile ++ [r])
            (kd ++ [(k, ⟨C, off, e.size⟩)]) (hs ++ [⟨k, off, e.size⟩])
        else none

/-- `Store::compact`. -/
def Store.compact (s : Store) : Option Store :=
  let C := s.active_id + 1
  let s₁ := s.new_active_data_file (some (C + 1))
  match compactLoop C s₁.files
      (List.insertionSort (fun a b => a.1 ≤ b.1) s₁.keydir) [] [] [] with
  | none => none
  | some (cfile, kd, hs) =>
    let files₂ := alInsert C cfile (s₁.files.filter (fun p => decide (C ≤ p.1)))
    let hints₁ := s₁.hints.filter
      (fun p => ! (decide (p.1 < C) && (alLookup s₁.files p.1).isSome))
    let hints₂ := if hs.isEmpty then hints₁ else hints₁ ++ [(C, hs)]
    some { s₁ with
      files := files₂,
      hints := hints₂,
      keydir := kd,
      stats := { s₁.stats with
        total_data_files := files₂.length,
        total_active_entries := kd.length,
        total_stale_entries := 0,
        size_of_stale_entries := 0,
        size_of_all_data_files := fileSize cfile } }

/-! ## Recovery (src/store.rs `Store::build_keydir`) -/

/-- Accumulator of `build_keydir`: the keydir under construction plus
the stale counters the scan updates. -/
structure RecAcc where
  kd : List (List Nat × KeyDirEntry)
  total_stale_entries : Nat
  size_of_stale_entries : Nat
deriving DecidableEq, Repr

/-- One record of `build_keydir_from_data_file`: abort on an invalid
checksum; a tombstone bumps stale counters and drops any prior keydir
entry (counting it stale too); anything else (over)writes the entry. -/
def scanStep (id off : Nat) (acc : RecAcc) (r : InnerEntry) : Except TinkvError RecAcc :=
  if ¬ r.is_valid then .error (.DataEntryCorrupted id r.key off)
  else if r.value = REMOVE_TOMESTONE then
    match alLookup acc.kd r.key with
    | some old => .ok { kd := alRemove r.key acc.kd,
                        total_stale_entries := acc.total_stale_entries + 1 + 1,
                        size_of_stale_entries :=
                          acc.size_of_stale_entries + r.encodedSize + old.size }
    | none => .ok { acc with
        total_stale_entries := acc.total_stale_entries + 1,
        size_of_stale_entries := acc.size_of_stale_entries + r.encodedSize }
  else .ok { acc with kd := alInsert r.key ⟨id, off, r.encodedSize⟩ acc.kd }

/-- Sequential scan of one data file from offset 0 (`entry_iter`). -/
def scanRecords (id : Nat) (off : Nat) (acc : RecAcc) :
    List InnerEntry → Except TinkvError RecAcc
  | [] => .ok acc
  | r :: t =>
    match scanStep id off acc r with
    | .ok acc₁ => scanRecords id (off + r.encodedSize) acc₁ t
    | .error e => .error e

/-- `build_keydir_from_hint_file`: insert one entry per hint record. -/
def applyHints (id : Nat) (kd : List (List Nat × KeyDirEntry)) (hs : List HintEntry) :
    List (List Nat × KeyDirEntry) :=
  hs.foldl (fun kd h => alInsert h.key ⟨id, h.offset, h.size⟩ kd) kd

/-- `build_keydir`'s loop over sorted file ids: use the hint file when
present, otherwise scan the data file. -/
def recoverIds (files : List (Nat × List InnerEntry)) (hints : List (Nat × List HintEntry)) :
    List Nat → RecAcc → Except TinkvError RecAcc
  | [], acc => .ok acc
  | id :: rest, acc =>
    match alLookup hints id with
    | some hs => recoverIds files hints rest { acc with kd := applyHints id acc.kd hs }
    | none =>
      match scanRecords id 0 acc ((alLookup files id).getD []) with
      | .ok acc₁ => recoverIds files hints rest acc₁
      | .error e => .error e

/-- `Store::build_keydir`: process the data-file ids in ascending order. -/
def recoverAll (files : List (Nat × List InnerEntry)) (hints : List (Nat × List HintEntry)) :
    Except TinkvError RecAcc :=
  recoverIds files hints (List.insertionSort (· ≤ ·) (files.map Prod.fst)) ⟨[], 0, 0⟩

/-- `Store::open_with_options` on a directory holding the given data
and hint files: count and size the data files, rebuild the keydir, then
allocate a fresh active file with id `max(existing) + 1` (or 1). -/
def openStore (files : List (Nat × List InnerEntry)) (hints : List (Nat × List HintEntry))
    (cfg : Config) : Except TinkvError Store := do
  let acc ← recoverAll files hints
  let nid := listMax (files.map Prod.fst) + 1
  .ok { files := alInsert nid [] files,
        hints := hints,
        active_id := nid,
        keydir := acc.kd,
        stats := { size_of_stale_entries := acc.size_of_stale_entries,
                   total_stale_entries := acc.total_stale_entries,
                   total_active_entries := acc.kd.length,
                   total_data_files := files.length + 1,
                   size_of_all_data_files := (files.map (fun p => fileSize p.2)).sum },
        config := cfg }

/-- The data files left on disk by `Store::close` followed by `Drop`:
`DataFile::drop` unlinks the (writable) active file when it is empty;
sealed read-only files are untouched. -/
def Store.closeDisk (s : Store) : List (Nat × List InnerEntry) :=
  if s.activeFile.isEmpty then alRemove s.active_id s.files else s.files

/-- Clean close and reopen of the same directory with the same config. -/
def Store.reopen (s : Store) : Except TinkvError Store :=
  openStore s.closeDisk s.hints s.config

/-! ## Operation traces -/

/-- The mutating public operations (plus `readOnly`, standing for any
of `get`/`keys`/`stats`/`sync`/`close`, which leave the state
unchanged). -/
inductive Op
  | set (k v : List Nat) (ts : Nat)
  | remove (k : List Nat) (ts : Nat)
  | compact
  | readOnly
deriving DecidableEq, Repr

/-- Apply one operation; `none` models a panic (unreachable from
well-formed states). -/
def applyOp (s : Store) : Op → Option (Except TinkvError Store)
  | .set k v ts => some (s.set k v ts)
  | .remove k ts => some (s.remove k ts)
  | .compact => s.compact.map Except.ok
  | .readOnly => some (.ok s)

/-- Run a list of operations, stopping at the first error or panic. -/
def runOps (s : Store) : List Op → Option (Except TinkvError Store)
  | [] => some (.ok s)
  | op :: rest =>
    match applyOp s op with
    | some (.ok s₁) => runOps s₁ rest
    | some (.error e) => some (.error e)
    | none => none

/-- The value the trace leaves behind for key `k`: the argument of the
last `set k _`, unless a later `remove k` cancelled it. -/
def latestValue (k : List Nat) (ops : List Op) : Option (List Nat) :=
  ops.foldl (fun acc op =>
    match op with
    | .set k' v _ => if k' = k then some v else acc
    | .remove k' _ => if k' = k then none else acc
    | _ => acc) none

/-! ## File-name parsing (src/util/misc.rs `parse_file_id`,
src/store.rs `open_data_files`, src/segment/data.rs `DataFile::new`) -/

/-- Rust `str::parse::<u64>` over ASCII bytes: optional leading `+`,
then one or more decimal digits, value below `2 ^ 64`. -/
def parseDigits (acc : Nat) : List Nat → Option Nat
  | [] => some acc
  | b :: t => if 48 ≤ b ∧ b ≤ 57 then parseDigits (acc * 10 + (b - 48)) t else none

/-- `u64::from_str`. -/
def parseU64 (cs : List Nat) : Option Nat :=
  let cs₁ := match cs with
    | 43 :: t => t
    | _ => cs
  match cs₁ with
  | [] => none
  | _ => (parseDigits 0 cs₁).bind (fun n => if n < 2 ^ 64 then some n else none)

/-- `parse_file_id`: the digits of the file name before the first `.`
(byte 46), parsed as `u64`. -/
def parse_file_id (name : List Nat) : Option Nat :=
  parseU64 (name.takeWhile (fun b => b != 46))

/-- Whether a file name matches the glob `*.tinkv.data`. -/
def hasDataSuffix (name : List Nat) : Bool :=
  decide (dataSuffixBytes.length ≤ name.length) &&
    (name.drop (name.length - dataSuffixBytes.length) == dataSuffixBytes)

/-- `Store::open_data_files` at the file-name level: every directory
entry matching `*.tinkv.data` is opened with `DataFile::new`, which
runs `parse_file_id(path).expect("file id not found in file path")` —
an unparseable id is a panic, modelled as `none`. -/
def open_data_files (dir : List (List Nat)) : Option (List Nat) :=
  (dir.filter hasDataSuffix).mapM parse_file_id

/-! ## Further association-list and sorting lemmas -/

section MoreAssoc

variable {κ : Type} {α : Type} [DecidableEq κ]

theorem mem_alInsert {l : List (κ × α)} {k : κ} {v : α} {p : κ × α}
    (h : p ∈ alInsert k v l) : p = (k, v) ∨ p ∈ l := by
  induction l with
  | nil => simpa [alInsert] using h
  | cons q t ih =>
    obtain ⟨k₀, v₀⟩ := q
    by_cases hk : k = k₀
    · rcases (by simpa [alInsert, hk] using h : p = (k, v) ∨ p ∈ t) with h₁ | h₁
      · exact Or.inl h₁
      · exact Or.inr (List.mem_cons_of_mem _ h₁)
    · rcases (by simpa [alInsert, hk] using h : p = (k₀, v₀) ∨ p ∈ alInsert k v t) with h₁ | h₁
      · exact Or.inr (by simp [h₁])
      · rcases ih h₁ with h₂ | h₂
        · exact Or.inl h₂
        · exact Or.inr (List.mem_cons_of_mem _ h₂)

theorem alInsert_alInsert_same (l : List (κ × α)) (k : κ) (v w : α) :
    alInsert k v (alInsert k w l) = alInsert k v l := by
  induction l with
  | nil => simp [alInsert]
  | cons q t ih =>
    obtain ⟨k₀, v₀⟩ := q
    by_cases hk : k = k₀ <;> simp [alInsert, hk, ih]

theorem alLookup_mem {l : List (κ × α)} {k : κ} {v : α}
    (h : alLookup l k = some v) : (k, v) ∈ l := by
  induction l with
  | nil => simp [alLookup] at h
  | cons q t ih =>
    obtain ⟨k₀, v₀⟩ := q
    by_cases hk : k = k₀
    · subst hk
      simp [alLookup] at h
      simp [h]
    · simp [alLookup, hk] at h
      exact List.mem_cons_of_mem _ (ih h)

theorem alLookup_of_mem_nodup {l : List (κ × α)} {p : κ × α}
    (hnd : (l.map Prod.fst).Nodup) (h : p ∈ l) : alLookup l p.1 = some p.2 := by
  induction l with
  | nil => cases h
  | cons q t ih =>
    obtain ⟨k₀, v₀⟩ := q
    rw [List.map_cons, List.nodup_cons] at hnd
    rcases List.mem_cons.mp h with rfl | hm
    · simp [alLookup]
    · have hne : p.1 ≠ k₀ := by
        intro hh
        exact hnd.1 (by
          rw [← hh]
          exact List.mem_map.mpr ⟨p, hm, rfl⟩)
      simp [alLookup, hne, ih hnd.2 hm]

theorem alLookup_none_of_forall_ne {l : List (κ × α)} {k : κ}
    (h : ∀ p ∈ l, p.1 ≠ k) : alLookup l k = none := by
  induction l with
  | nil => rfl
  | cons q t ih =>
    obtain ⟨k₀, v₀⟩ := q
    have h₀ : ¬ k = k₀ := fun hh => h (k₀, v₀) (by simp) hh.symm
    simp [alLookup, h₀]
    exact ih (fun p hp => h p (List.mem_cons_of_mem _ hp))

/-- Lookup is invariant under permutation when keys are duplicate-free. -/
theorem alLookup_eq_of_perm {l₁ l₂ : List (κ × α)} (h : l₁.Perm l₂)
    (hnd : (l₁.map Prod.fst).Nodup) (k : κ) : alLookup l₁ k = alLookup l₂ k := by
  induction h with
  | nil => rfl
  | cons x h ih =>
    obtain ⟨k₀, v₀⟩ := x
    rw [List.map_cons, List.nodup_cons] at hnd
    by_cases hk : k = k₀ <;> simp [alLookup, hk, ih hnd.2]
  | swap x y l =>
    obtain ⟨k₁, v₁⟩ := x
    obtain ⟨k₂, v₂⟩ := y
    rw [List.map_cons, List.map_cons, List.nodup_cons] at hnd
    have hne : k₂ ≠ k₁ := fun hh => hnd.1 (by simp [hh])
    by_cases h₁ : k = k₂ <;> by_cases h₂ : k = k₁
    · exact absurd (h₁.symm.trans h₂) hne
    · simp [alLookup, h₁, h₂, hne]
    · simp [alLookup, h₁, h₂, Ne.symm hne]
    · simp [alLookup, h₁, h₂]
  | trans h₁ h₂ ih₁ ih₂ =>
    have hnd₂ : _ := (h₁.map Prod.fst).nodup_iff.mp hnd
    rw [ih₁ hnd, ih₂ hnd₂]

end MoreAssoc

/-- Sorting a duplicate-free id list whose maximum is `M` puts `M` at
the very end. -/
theorem sort_eq_erase_append_max {ids : List Nat} {M : Nat}
    (hmem : M ∈ ids) (hmax : ∀ x ∈ ids, x ≤ M) :
    List.insertionSort (· ≤ ·) ids =
      List.insertionSort (· ≤ ·) (ids.erase M) ++ [M] := by
  have hperm₁ : ids.Perm (M :: ids.erase M) := List.perm_cons_erase hmem
  have hp1 : (List.insertionSort (· ≤ ·) (ids.erase M) ++ [M]).Perm (ids.erase M ++ [M]) :=
    (List.perm_insertionSort _ _).append_right [M]
  have hp2 : (ids.erase M ++ [M]).Perm (M :: ids.erase M) :=
    List.perm_append_singleton M (ids.erase M)
  have hperm₂ : (List.insertionSort (· ≤ ·) (ids.erase M) ++ [M]).Perm ids :=
    (hp1.trans hp2).trans hperm₁.symm
  have hsorted : (List.insertionSort (· ≤ ·) (ids.erase M) ++ [M]).Sorted (· ≤ ·) := by
    refine List.pairwise_append.mpr
      ⟨List.sorted_insertionSort _ _, List.sorted_singleton M, ?_⟩
    intro x hx y hy
    rw [List.mem_singleton] at hy
    subst hy
    rw [List.mem_insertionSort] at hx
    exact hmax x (List.mem_of_mem_erase hx)
  exact List.eq_of_perm_of_sorted
    ((List.perm_insertionSort _ ids).trans hperm₂.symm)
    (List.sorted_insertionSort _ ids) hsorted

/-! ## The store invariant -/

/-- Invariant of every store reachable by `open` on a fresh directory
followed by successful public operations. -/
structure StoreInv (s : Store) : Prop where
  active_mem : (alLookup s.files s.active_id).isSome
  active_max : ∀ p ∈ s.files, p.1 ≤ s.active_id
  files_nodup : (s.files.map Prod.fst).Nodup
  keydir_nodup : (s.keydir.map Prod.fst).Nodup
  keydir_ok : ∀ k e, alLookup s.keydir k = some e →
    ∃ f r, alLookup s.files e.segment_id = some f ∧ entryAt f e.offset = some r ∧
      r.encodedSize = e.size ∧ r.key = k ∧ r.is_valid = true
  hints_lt : ∀ p ∈ s.hints, p.1 < s.active_id
  hints_sub : ∀ p ∈ s.hints, (alLookup s.files p.1).isSome
  log_valid : ∀ p ∈ s.files, ∀ r ∈ p.2, r.is_valid = true
  stats_active : s.stats.total_active_entries = s.keydir.length

namespace Store

theorem get_none {s : Store} {k : List Nat} (h : alLookup s.keydir k = none) :
    s.get k = .ok none := by
  simp [get, h]

theorem get_some_of_parts {s : Store} {k : List Nat} {e : KeyDirEntry}
    {f : List InnerEntry} {r : InnerEntry}
    (hkd : alLookup s.keydir k = some e) (hf : alLookup s.files e.segment_id = some f)
    (hr : entryAt f e.offset = some r) (hv : r.is_valid = true) :
    s.get k = .ok (some r.value) := by
  simp [get, hkd, hf, hr, hv]

end Store

/-- Under the invariant, `get` never errors: it answers `Ok None` on a
keydir miss and `Ok (Some value-of-the-referenced-record)` on a hit. -/
theorem StoreInv.get_spec {s : Store} (hInv : StoreInv s) (k : List Nat) :
    (alLookup s.keydir k = none ∧ s.get k = .ok none) ∨
    (∃ e f r, alLookup s.keydir k = some e ∧
      alLookup s.files e.segment_id = some f ∧ entryAt f e.offset = some r ∧
      r.encodedSize = e.size ∧ r.key = k ∧ r.is_valid = true ∧
      s.get k = .ok (some r.value)) := by
  cases hkd : alLookup s.keydir k with
  | none => exact Or.inl ⟨rfl, Store.get_none hkd⟩
  | some e =>
    obtain ⟨f, r, hf, hr, hsz, hkey, hval⟩ := hInv.keydir_ok k e hkd
    exact Or.inr ⟨e, f, r, rfl, hf, hr, hsz, hkey, hval,
      Store.get_some_of_parts hkd hf hr hval⟩

/-! ## The write step -/

namespace Store

/-- What `Store::write` guarantees: the record lands at the tail of the
(possibly freshly rolled-over) active file, every other file is
untouched, and the reported offset/size are the tail offset and the
encoded size. -/
structure WriteSpec (s s₁ : Store) (info : WriteInfo) (af : List InnerEntry)
    (r : InnerEntry) : Prop where
  lkp : alLookup s₁.files s₁.active_id = some (af ++ [r])
  other : ∀ id, id ≠ s₁.active_id → alLookup s₁.files id = alLookup s.files id
  fid : info.file_id = s₁.active_id
  foff : info.offset = fileSize af
  fsize : info.size = r.encodedSize
  amax : ∀ p ∈ s₁.files, p.1 ≤ s₁.active_id
  fnodup : (s₁.files.map Prod.fst).Nodup
  kd : s₁.keydir = s.keydir
  hnt : s₁.hints = s.hints
  cfgE : s₁.config = s.config
  aLe : s.active_id ≤ s₁.active_id
  statsStale : s₁.stats.size_of_stale_entries = s.stats.size_of_stale_entries
  statsStaleCnt : s₁.stats.total_stale_entries = s.stats.total_stale_entries
  statsActive : s₁.stats.total_active_entries = s.stats.total_active_entries
  statsAll : s₁.stats.size_of_all_data_files = s.stats.size_of_all_data_files
  shape : (s₁.active_id = s.active_id ∧ alLookup s.files s.active_id = some af ∧
             s₁.files = alInsert s.active_id (af ++ [r]) s.files)
        ∨ (af = [] ∧ s₁.files = alInsert s₁.active_id [r] s.files ∧
             s₁.active_id ∉ s.files.map Prod.fst)


theorem new_active_none_files (s : Store) :
    (s.new_active_data_file none).files =
      alInsert (listMax (s.files.map Prod.fst) + 1) [] s.files := rfl

theorem new_active_none_id (s : Store) :
    (s.new_active_data_file none).active_id = listMax (s.files.map Prod.fst) + 1 := rfl

theorem new_active_none_activeFile (s : Store) :
    (s.new_active_data_file none).activeFile = [] := by
  simp [activeFile, new_active_data_file]

theorem write_eq_no_roll {s : Store} (k v : List Nat) (ts : Nat)
    (h : ¬ fileSize s.activeFile > s.config.max_data_file_size) :
    s.write k v ts =
      ({ s with
          files := alInsert s.active_id
            (s.activeFile ++ [InnerEntry.new k v ts]) s.files },
       ⟨s.active_id, fileSize s.activeFile, (InnerEntry.new k v ts).encodedSize⟩) := by
  simp only [write, if_neg h]

theorem write_eq_roll {s : Store} (k v : List Nat) (ts : Nat)
    (h : fileSize s.activeFile > s.config.max_data_file_size) :
    s.write k v ts =
      ({ s.new_active_data_file none with
          files := alInsert (s.new_active_data_file none).active_id
            ((s.new_active_data_file none).activeFile ++ [InnerEntry.new k v ts])
            (s.new_active_data_file none).files },
       ⟨(s.new_active_data_file none).active_id,
        fileSize (s.new_active_data_file none).activeFile,
        (InnerEntry.new k v ts).encodedSize⟩) := by
  simp only [write, if_pos h]

theorem write_spec {s : Store} (hInv : StoreInv s) (k v : List Nat) (ts : Nat) :
    ∃ af, WriteSpec s (s.write k v ts).1 (s.write k v ts).2 af (InnerEntry.new k v ts) := by
  obtain ⟨af₀, haf₀⟩ := Option.isSome_iff_exists.mp hInv.active_mem
  have hafval : s.activeFile = af₀ := by simp [activeFile, haf₀]
  have hAmem : s.active_id ∈ s.files.map Prod.fst :=
    (alLookup_isSome_iff_mem _ _).mp hInv.active_mem
  by_cases hroll : fileSize s.activeFile > s.config.max_data_file_size
  · -- roll over to a fresh file with id listMax + 1
    refine ⟨[], ?_⟩
    rw [write_eq_roll k v ts hroll]
    simp only [new_active_data_file, Option.getD_none, activeFile,
               alLookup_alInsert_self, Option.getD_some, List.nil_append]
    have hfresh : listMax (s.files.map Prod.fst) + 1 ∉ s.files.map Prod.fst := by
      intro hmem
      have := le_listMax hmem
      omega
    have hAle : s.active_id ≤ listMax (s.files.map Prod.fst) := le_listMax hAmem
    have hfiles : alInsert (listMax (s.files.map Prod.fst) + 1) [InnerEntry.new k v ts]
          (alInsert (listMax (s.files.map Prod.fst) + 1) [] s.files)
        = alInsert (listMax (s.files.map Prod.fst) + 1) [InnerEntry.new k v ts] s.files :=
      alInsert_alInsert_same _ _ _ _
    refine ⟨?_, ?_, rfl, rfl, rfl, ?_, ?_, rfl, rfl, rfl,
      (by
        show s.active_id ≤ listMax (s.files.map Prod.fst) + 1
        omega),
      rfl, rfl, rfl, rfl, ?_⟩
    · simp
    · intro id hid
      simp only at hid ⊢
      rw [hfiles]
      exact alLookup_alInsert_ne _ _ hid
    · intro p hp
      simp only at hp ⊢
      rw [hfiles] at hp
      rcases mem_alInsert hp with rfl | hp₁
      · exact le_refl _
      · have hm : p.1 ∈ s.files.map Prod.fst := List.mem_map.mpr ⟨p, hp₁, rfl⟩
        have := le_listMax hm
        omega
    · simp only
      rw [hfiles]
      exact nodup_keys_alInsert _ _ _ hInv.files_nodup
    · exact Or.inr ⟨rfl, hfiles, hfresh⟩
  · refine ⟨s.activeFile, ?_⟩
    rw [write_eq_no_roll k v ts hroll]
    refine ⟨?_, ?_, rfl, rfl, rfl, ?_, ?_, rfl, rfl, rfl, le_refl _,
      rfl, rfl, rfl, rfl, ?_⟩
    · simp
    · intro id hid
      simp only at hid ⊢
      exact alLookup_alInsert_ne _ _ hid
    · intro p hp
      simp only at hp ⊢
      rcases mem_alInsert hp with rfl | hp₁
      · exact le_refl _
      · exact hInv.active_max p hp₁
    · exact nodup_keys_alInsert _ _ _ hInv.files_nodup
    · exact Or.inl ⟨rfl, hafval ▸ haf₀, rfl⟩

end Store

namespace Store

/-- Records referenced before a write are still readable at the same
location afterwards. -/
theorem preserved_entry {s W1 : Store} {info : WriteInfo} {af : List InnerEntry}
    {r : InnerEntry} (hws : WriteSpec s W1 info af r) {e : KeyDirEntry}
    {f : List InnerEntry} {r' : InnerEntry}
    (hf : alLookup s.files e.segment_id = some f) (hr : entryAt f e.offset = some r') :
    ∃ f₂, alLookup W1.files e.segment_id = some f₂ ∧ entryAt f₂ e.offset = some r' := by
  by_cases hseg : e.segment_id = W1.active_id
  · rcases hws.shape with ⟨hA, hafl, hfe⟩ | ⟨hafE, hfe, hfresh⟩
    · have hfa : f = af := by
        rw [hseg, hA] at hf
        rw [hafl] at hf
        exact (Option.some_inj.mp hf).symm
      refine ⟨af ++ [r], ?_, ?_⟩
      · rw [hseg]
        exact hws.lkp
      · rw [← hfa]
        exact entryAt_append_of_some hr r
    · exfalso
      apply hfresh
      rw [← hseg]
      exact (alLookup_isSome_iff_mem _ _).mp (by simp [hf])
  · exact ⟨f, by rw [hws.other _ hseg]; exact hf, hr⟩

/-- All log records stay checksum-valid across a write of a freshly
checksummed record. -/
theorem write_log_valid {s W1 : Store} {info : WriteInfo} {af : List InnerEntry}
    {r : InnerEntry} (hInv : StoreInv s) (hws : WriteSpec s W1 info af r)
    (hrv : r.is_valid = true) :
    ∀ p ∈ W1.files, ∀ x ∈ p.2, x.is_valid = true := by
  rcases hws.shape with ⟨hA, hafl, hfe⟩ | ⟨hafE, hfe, hfresh⟩
  · rw [hfe]
    intro p hp x hx
    rcases mem_alInsert hp with rfl | hp₁
    · rcases List.mem_append.mp hx with hx₁ | hx₁
      · exact hInv.log_valid _ (alLookup_mem hafl) x hx₁
      · rw [List.mem_singleton] at hx₁
        subst hx₁
        exact hrv
    · exact hInv.log_valid p hp₁ x hx
  · rw [hfe]
    intro p hp x hx
    rcases mem_alInsert hp with rfl | hp₁
    · rw [List.mem_singleton] at hx
      subst hx
      exact hrv
    · exact hInv.log_valid p hp₁ x hx

theorem set_err_key {s : Store} {k v : List Nat} {ts : Nat}
    (h : k.length > s.config.max_key_size) :
    s.set k v ts = .error .KeyIsTooLarge := by
  simp [set, h]

theorem set_err_value {s : Store} {k v : List Nat} {ts : Nat}
    (hk : ¬ k.length > s.config.max_key_size)
    (hv : v.length > s.config.max_value_size) :
    s.set k v ts = .error .ValueIsTooLarge := by
  simp [set, hk, hv]

theorem remove_err {s : Store} {k : List Nat} {ts : Nat}
    (h : alLookup s.keydir k = none) :
    s.remove k ts = .error (.KeyNotFound k) := by
  simp [remove, h]

end Store

namespace Store

theorem set_eq_ok_fresh {s : Store} {k v : List Nat} {ts : Nat}
    (hk : ¬ k.length > s.config.max_key_size)
    (hv : ¬ v.length > s.config.max_value_size)
    (hold : alLookup (s.write k v ts).1.keydir k = none) :
    s.set k v ts = .ok
      { (s.write k v ts).1 with
        keydir := alInsert k
          ⟨(s.write k v ts).2.file_id, (s.write k v ts).2.offset,
           (s.write k v ts).2.size⟩ (s.write k v ts).1.keydir,
        stats :=
          { (s.write k v ts).1.stats with
            total_active_entries := (s.write k v ts).1.stats.total_active_entries + 1,
            size_of_all_data_files :=
              (s.write k v ts).1.stats.size_of_all_data_files + (s.write k v ts).2.size } } := by
  simp only [set, if_neg hk, if_neg hv, hold]

theorem set_eq_ok_stale {s : Store} {k v : List Nat} {ts : Nat} {oldEnt : KeyDirEntry}
    (hk : ¬ k.length > s.config.max_key_size)
    (hv : ¬ v.length > s.config.max_value_size)
    (hold : alLookup (s.write k v ts).1.keydir k = some oldEnt) :
    s.set k v ts = .ok
      { (s.write k v ts).1 with
        keydir := alInsert k
          ⟨(s.write k v ts).2.file_id, (s.write k v ts).2.offset,
           (s.write k v ts).2.size⟩ (s.write k v ts).1.keydir,
        stats :=
          { (s.write k v ts).1.stats with
            size_of_stale_entries :=
              (s.write k v ts).1.stats.size_of_stale_entries + oldEnt.size,
            total_stale_entries := (s.write k v ts).1.stats.total_stale_entries + 1,
            size_of_all_data_files :=
              (s.write k v ts).1.stats.size_of_all_data_files + (s.write k v ts).2.size } } := by
  simp only [set, if_neg hk, if_neg hv, hold]

theorem remove_eq_ok {s : Store} {k : List Nat} {ts : Nat} {old : KeyDirEntry}
    (hold : alLookup s.keydir k = some old) :
    s.remove k ts = .ok
      { (s.write k REMOVE_TOMESTONE ts).1 with
        keydir := alRemove k (s.write k REMOVE_TOMESTONE ts).1.keydir,
        stats :=
          { (s.write k REMOVE_TOMESTONE ts).1.stats with
            total_active_entries :=
              (s.write k REMOVE_TOMESTONE ts).1.stats.total_active_entries - 1,
            total_stale_entries :=
              (s.write k REMOVE_TOMESTONE ts).1.stats.total_stale_entries + 1,
            size_of_all_data_files :=
              (s.write k REMOVE_TOMESTONE ts).1.stats.size_of_all_data_files
                + (s.write k REMOVE_TOMESTONE ts).2.size,
            size_of_stale_entries :=
              (s.write k REMOVE_TOMESTONE ts).1.stats.size_of_stale_entries
                + old.size + (s.write k REMOVE_TOMESTONE ts).2.size } } := by
  simp only [remove, hold]

end Store

namespace Store

/-- Invariant preservation and the get-update law for the store built
by a successful `set`, stated over any store with the right fields. -/
theorem set_built_spec {s s₂ : Store} (hInv : StoreInv s) {k v : List Nat} {ts : Nat}
    {af : List InnerEntry}
    (hws : WriteSpec s (s.write k v ts).1 (s.write k v ts).2 af (InnerEntry.new k v ts))
    (hfiles : s₂.files = (s.write k v ts).1.files)
    (hhints : s₂.hints = s.hints)
    (hactive : s₂.active_id = (s.write k v ts).1.active_id)
    (hkd : s₂.keydir = alInsert k
      ⟨(s.write k v ts).2.file_id, (s.write k v ts).2.offset, (s.write k v ts).2.size⟩
      s.keydir)
    (hstA : s₂.stats.total_active_entries = s₂.keydir.length) :
    StoreInv s₂ ∧ ∀ k', s₂.get k' = if k' = k then GetResult.ok (some v) else s.get k' := by
  have hnewseg : (⟨(s.write k v ts).2.file_id, (s.write k v ts).2.offset,
      (s.write k v ts).2.size⟩ : KeyDirEntry).segment_id = (s.write k v ts).1.active_id :=
    hws.fid
  have hnewoff : (⟨(s.write k v ts).2.file_id, (s.write k v ts).2.offset,
      (s.write k v ts).2.size⟩ : KeyDirEntry).offset = fileSize af := hws.foff
  have hnewsize : (⟨(s.write k v ts).2.file_id, (s.write k v ts).2.offset,
      (s.write k v ts).2.size⟩ : KeyDirEntry).size = (InnerEntry.new k v ts).encodedSize :=
    hws.fsize
  have hkdhit : ∀ {k₀ e}, alLookup s₂.keydir k₀ = some e → k₀ ≠ k →
      alLookup s.keydir k₀ = some e := by
    intro k₀ e he hne
    rw [hkd, alLookup_alInsert_ne _ _ hne] at he
    exact he
  have hinv₂ : StoreInv s₂ := by
    constructor
    · rw [hfiles, hactive, hws.lkp]
      rfl
    · rw [hfiles, hactive]
      exact hws.amax
    · rw [hfiles]
      exact hws.fnodup
    · rw [hkd]
      exact nodup_keys_alInsert _ _ _ hInv.keydir_nodup
    · intro k' e he
      by_cases hk' : k' = k
      · subst hk'
        rw [hkd, alLookup_alInsert_self] at he
        cases he
        refine ⟨af ++ [InnerEntry.new k' v ts], InnerEntry.new k' v ts, ?_, ?_, ?_, ?_, ?_⟩
        · rw [hfiles, hnewseg]
          exact hws.lkp
        · rw [hnewoff]
          exact entryAt_tail af _
        · rw [hnewsize]
        · exact InnerEntry.new_key k' v ts
        · exact InnerEntry.new_is_valid k' v ts
      · obtain ⟨f, r', hf, hr, hsz, hkey, hval⟩ :=
          hInv.keydir_ok k' e (hkdhit he hk')
        obtain ⟨f₂, hf₂, hr₂⟩ := preserved_entry hws hf hr
        exact ⟨f₂, r', by rw [hfiles]; exact hf₂, hr₂, hsz, hkey, hval⟩
    · intro p hp
      rw [hhints] at hp
      have := hInv.hints_lt p hp
      have := hws.aLe
      rw [hactive]
      omega
    · intro p hp
      rw [hhints] at hp
      have hlt := hInv.hints_lt p hp
      have hle := hws.aLe
      have hne : p.1 ≠ (s.write k v ts).1.active_id := by omega
      rw [hfiles, hws.other _ hne]
      exact hInv.hints_sub p hp
    · rw [hfiles]
      exact write_log_valid hInv hws (InnerEntry.new_is_valid k v ts)
    · exact hstA
  refine ⟨hinv₂, ?_⟩
  intro k'
  by_cases hk' : k' = k
  · subst hk'
    rw [if_pos rfl]
    have hkdX : alLookup s₂.keydir k' = some
        ⟨(s.write k' v ts).2.file_id, (s.write k' v ts).2.offset,
         (s.write k' v ts).2.size⟩ := by
      rw [hkd]
      exact alLookup_alInsert_self _ _ _
    have := get_some_of_parts hkdX
      (by
        rw [hfiles, hnewseg]
        exact hws.lkp)
      (by
        rw [hnewoff]
        exact entryAt_tail af _)
      (InnerEntry.new_is_valid k' v ts)
    rw [this, InnerEntry.new_value]
  · rw [if_neg hk']
    rcases hInv.get_spec k' with ⟨hnone, hget⟩ | ⟨e, f, r', hkde, hf, hr, hsz, hkey, hval, hget⟩
    · rw [hget]
      apply get_none
      rw [hkd, alLookup_alInsert_ne _ _ hk', hnone]
    · rw [hget]
      obtain ⟨f₂, hf₂, hr₂⟩ := preserved_entry hws hf hr
      apply get_some_of_parts
        (by rw [hkd, alLookup_alInsert_ne _ _ hk']; exact hkde)
        (by rw [hfiles]; exact hf₂) hr₂ hval

/-- Invariant preservation and the get-update law for the store built
by a successful `remove`. -/
theorem remove_built_spec {s s₂ : Store} (hInv : StoreInv s) {k : List Nat} {ts : Nat}
    {af : List InnerEntry}
    (hws : WriteSpec s (s.write k REMOVE_TOMESTONE ts).1 (s.write k REMOVE_TOMESTONE ts).2
      af (InnerEntry.new k REMOVE_TOMESTONE ts))
    (hfiles : s₂.files = (s.write k REMOVE_TOMESTONE ts).1.files)
    (hhints : s₂.hints = s.hints)
    (hactive : s₂.active_id = (s.write k REMOVE_TOMESTONE ts).1.active_id)
    (hkd : s₂.keydir = alRemove k s.keydir)
    (hstA : s₂.stats.total_active_entries = s₂.keydir.length) :
    StoreInv s₂ ∧ ∀ k', s₂.get k' = if k' = k then GetResult.ok none else s.get k' := by
  have hinv₂ : StoreInv s₂ := by
    constructor
    · rw [hfiles, hactive, hws.lkp]
      rfl
    · rw [hfiles, hactive]
      exact hws.amax
    · rw [hfiles]
      exact hws.fnodup
    · rw [hkd]
      exact nodup_keys_alRemove _ _ hInv.keydir_nodup
    · intro k' e he
      by_cases hk' : k' = k
      · subst hk'
        rw [hkd, alLookup_alRemove_self] at he
        cases he
      · rw [hkd, alLookup_alRemove_ne _ hk'] at he
        obtain ⟨f, r', hf, hr, hsz, hkey, hval⟩ := hInv.keydir_ok k' e he
        obtain ⟨f₂, hf₂, hr₂⟩ := preserved_entry hws hf hr
        exact ⟨f₂, r', by rw [hfiles]; exact hf₂, hr₂, hsz, hkey, hval⟩
    · intro p hp
      rw [hhints] at hp
      have := hInv.hints_lt p hp
      have := hws.aLe
      rw [hactive]
      omega
    · intro p hp
      rw [hhints] at hp
      have hlt := hInv.hints_lt p hp
      have hle := hws.aLe
      have hne : p.1 ≠ (s.write k REMOVE_TOMESTONE ts).1.active_id := by omega
      rw [hfiles, hws.other _ hne]
      exact hInv.hints_sub p hp
    · rw [hfiles]
      exact write_log_valid hInv hws (InnerEntry.new_is_valid k REMOVE_TOMESTONE ts)
    · exact hstA
  refine ⟨hinv₂, ?_⟩
  intro k'
  by_cases hk' : k' = k
  · subst hk'
    rw [if_pos rfl]
    apply get_none
    rw [hkd]
    exact alLookup_alRemove_self _ _
  · rw [if_neg hk']
    rcases hInv.get_spec k' with ⟨hnone, hget⟩ | ⟨e, f, r', hkde, hf, hr, hsz, hkey, hval, hget⟩
    · rw [hget]
      apply get_none
      rw [hkd, alLookup_alRemove_ne _ hk', hnone]
    · rw [hget]
      obtain ⟨f₂, hf₂, hr₂⟩ := preserved_entry hws hf hr
      apply get_some_of_parts
        (by rw [hkd, alLookup_alRemove_ne _ hk']; exact hkde)
        (by rw [hfiles]; exact hf₂) hr₂ hval

end Store

namespace Store

theorem write_stats_stale (s : Store) (k v : List Nat) (ts : Nat) :
    (s.write k v ts).1.stats.size_of_stale_entries = s.stats.size_of_stale_entries := by
  by_cases h : fileSize s.activeFile > s.config.max_data_file_size
  · rw [write_eq_roll k v ts h]
    rfl
  · rw [write_eq_no_roll k v ts h]

theorem write_info_size (s : Store) (k v : List Nat) (ts : Nat) :
    (s.write k v ts).2.size = (InnerEntry.new k v ts).encodedSize := by
  by_cases h : fileSize s.activeFile > s.config.max_data_file_size
  · rw [write_eq_roll k v ts h]
  · rw [write_eq_no_roll k v ts h]

theorem set_ok_spec {s : Store} (hInv : StoreInv s) {k v : List Nat} {ts : Nat}
    (hk : k.length ≤ s.config.max_key_size) (hv : v.length ≤ s.config.max_value_size) :
    ∃ s₂, s.set k v ts = .ok s₂ ∧ StoreInv s₂ ∧
      (∀ k', s₂.get k' = if k' = k then GetResult.ok (some v) else s.get k') ∧
      s₂.files = (s.write k v ts).1.files ∧
      s₂.hints = s.hints ∧
      s₂.active_id = (s.write k v ts).1.active_id ∧
      s₂.config = s.config ∧
      s₂.keydir = alInsert k
        ⟨(s.write k v ts).2.file_id, (s.write k v ts).2.offset, (s.write k v ts).2.size⟩
        s.keydir := by
  obtain ⟨af, hws⟩ := write_spec hInv k v ts
  have hk' : ¬ k.length > s.config.max_key_size := by omega
  have hv' : ¬ v.length > s.config.max_value_size := by omega
  cases hold : alLookup s.keydir k with
  | none =>
    have hold1 : alLookup (s.write k v ts).1.keydir k = none := by
      rw [hws.kd]
      exact hold
    have hXeq := set_eq_ok_fresh hk' hv' hold1
    cases hset : s.set k v ts with
    | error e =>
      rw [hset] at hXeq
      cases hXeq
    | ok s₂ =>
      rw [hset] at hXeq
      have hs := Except.ok.inj hXeq
      have hfiles : s₂.files = (s.write k v ts).1.files := by rw [hs]
      have hhints : s₂.hints = s.hints := by
        rw [hs, ← hws.hnt]
      have hactive : s₂.active_id = (s.write k v ts).1.active_id := by rw [hs]
      have hconfig : s₂.config = s.config := by
        rw [hs, ← hws.cfgE]
      have hkd : s₂.keydir = alInsert k
          ⟨(s.write k v ts).2.file_id, (s.write k v ts).2.offset, (s.write k v ts).2.size⟩
          s.keydir := by
        rw [hs, ← hws.kd]
      have hstA : s₂.stats.total_active_entries = s₂.keydir.length := by
        rw [hs]
        show (s.write k v ts).1.stats.total_active_entries + 1 = _
        rw [length_alInsert_of_none _ hold1, hws.statsActive, hInv.stats_active, hws.kd]
      obtain ⟨hinv₂, hget⟩ := set_built_spec hInv hws hfiles hhints hactive hkd hstA
      exact ⟨s₂, rfl, hinv₂, hget, hfiles, hhints, hactive, hconfig, hkd⟩
  | some oldEnt =>
    have hold1 : alLookup (s.write k v ts).1.keydir k = some oldEnt := by
      rw [hws.kd]
      exact hold
    have hXeq := set_eq_ok_stale hk' hv' hold1
    cases hset : s.set k v ts with
    | error e =>
      rw [hset] at hXeq
      cases hXeq
    | ok s₂ =>
      rw [hset] at hXeq
      have hs := Except.ok.inj hXeq
      have hfiles : s₂.files = (s.write k v ts).1.files := by rw [hs]
      have hhints : s₂.hints = s.hints := by
        rw [hs, ← hws.hnt]
      have hactive : s₂.active_id = (s.write k v ts).1.active_id := by rw [hs]
      have hconfig : s₂.config = s.config := by
        rw [hs, ← hws.cfgE]
      have hkd : s₂.keydir = alInsert k
          ⟨(s.write k v ts).2.file_id, (s.write k v ts).2.offset, (s.write k v ts).2.size⟩
          s.keydir := by
        rw [hs, ← hws.kd]
      have hstA : s₂.stats.total_active_entries = s₂.keydir.length := by
        rw [hs]
        show (s.write k v ts).1.stats.total_active_entries = _
        rw [length_alInsert_of_isSome _ (by rw [hold1]; rfl),
          hws.statsActive, hInv.stats_active, hws.kd]
      obtain ⟨hinv₂, hget⟩ := set_built_spec hInv hws hfiles hhints hactive hkd hstA
      exact ⟨s₂, rfl, hinv₂, hget, hfiles, hhints, hactive, hconfig, hkd⟩

theorem remove_ok_spec {s : Store} (hInv : StoreInv s) {k : List Nat} {ts : Nat}
    {old : KeyDirEntry} (hold : alLookup s.keydir k = some old) :
    ∃ s₂, s.remove k ts = .ok s₂ ∧ StoreInv s₂ ∧
      (∀ k', s₂.get k' = if k' = k then GetResult.ok none else s.get k') ∧
      s₂.files = (s.write k REMOVE_TOMESTONE ts).1.files ∧
      s₂.hints = s.hints ∧
      s₂.active_id = (s.write k REMOVE_TOMESTONE ts).1.active_id ∧
      s₂.config = s.config ∧
      s₂.keydir = alRemove k s.keydir ∧
      s₂.stats.size_of_stale_entries = s.stats.size_of_stale_entries + old.size
        + (InnerEntry.new k REMOVE_TOMESTONE ts).encodedSize := by
  obtain ⟨af, hws⟩ := write_spec hInv k REMOVE_TOMESTONE ts
  have hXeq := @remove_eq_ok s k ts old hold
  cases hset : s.remove k ts with
  | error e =>
    rw [hset] at hXeq
    cases hXeq
  | ok s₂ =>
    rw [hset] at hXeq
    have hs := Except.ok.inj hXeq
    have hfiles : s₂.files = (s.write k REMOVE_TOMESTONE ts).1.files := by rw [hs]
    have hhints : s₂.hints = s.hints := by
      rw [hs, ← hws.hnt]
    have hactive : s₂.active_id = (s.write k REMOVE_TOMESTONE ts).1.active_id := by rw [hs]
    have hconfig : s₂.config = s.config := by
      rw [hs, ← hws.cfgE]
    have hkd : s₂.keydir = alRemove k s.keydir := by
      rw [hs, ← hws.kd]
    have hsome : (alLookup s.keydir k).isSome := by
      rw [hold]
      rfl
    have hlen := length_alRemove_add_one hInv.keydir_nodup hsome
    have hstA' : s₂.stats.total_active_entries
        = (s.write k REMOVE_TOMESTONE ts).1.stats.total_active_entries - 1 := by
      rw [hs]
    have hstA : s₂.stats.total_active_entries = s₂.keydir.length := by
      rw [hstA', hkd, hws.statsActive, hInv.stats_active]
      omega
    obtain ⟨hinv₂, hget⟩ := remove_built_spec hInv hws hfiles hhints hactive hkd hstA
    have hstale : s₂.stats.size_of_stale_entries = s.stats.size_of_stale_entries + old.size
        + (InnerEntry.new k REMOVE_TOMESTONE ts).encodedSize := by
      rw [hs]
      show (s.write k REMOVE_TOMESTONE ts).1.stats.size_of_stale_entries + old.size
          + (s.write k REMOVE_TOMESTONE ts).2.size = _
      rw [hws.statsStale, hws.fsize]
    exact ⟨s₂, rfl, hinv₂, hget, hfiles, hhints, hactive, hconfig, hkd, hstale⟩

end Store

/-! ## Recovery lemmas -/

@[simp] theorem fileSize_cons (r : InnerEntry) (t : List InnerEntry) :
    fileSize (r :: t) = r.encodedSize + fileSize t := by
  simp [fileSize]

theorem scanStep_ok_char {id off : Nat} {acc : RecAcc} {r : InnerEntry} {acc₁ : RecAcc}
    (h : scanStep id off acc r = .ok acc₁) :
    r.is_valid = true ∧
    ((r.value = REMOVE_TOMESTONE ∧ acc₁.kd = alRemove r.key acc.kd) ∨
     (r.value ≠ REMOVE_TOMESTONE ∧ acc₁.kd = alInsert r.key ⟨id, off, r.encodedSize⟩ acc.kd)) := by
  unfold scanStep at h
  by_cases hv : r.is_valid = true
  · rw [if_neg (by simp [hv])] at h
    refine ⟨hv, ?_⟩
    by_cases htomb : r.value = REMOVE_TOMESTONE
    · rw [if_pos htomb] at h
      refine Or.inl ⟨htomb, ?_⟩
      cases hlk : alLookup acc.kd r.key with
      | none =>
        rw [hlk] at h
        cases h
        rw [alRemove_of_not_mem]
        intro hmem
        rw [← alLookup_isSome_iff_mem, hlk] at hmem
        cases hmem
      | some old =>
        rw [hlk] at h
        cases h
        rfl
    · rw [if_neg htomb] at h
      cases h
      exact Or.inr ⟨htomb, rfl⟩
  · rw [if_pos (by simp [hv])] at h
    cases h

theorem scanStep_ok_of_valid {id off : Nat} {acc : RecAcc} {r : InnerEntry}
    (hv : r.is_valid = true) : ∃ acc₁, scanStep id off acc r = .ok acc₁ := by
  unfold scanStep
  rw [if_neg (by simp [hv])]
  by_cases htomb : r.value = REMOVE_TOMESTONE
  · rw [if_pos htomb]
    cases hlk : alLookup acc.kd r.key with
    | none => exact ⟨_, rfl⟩
    | some old => exact ⟨_, rfl⟩
  · rw [if_neg htomb]
    exact ⟨_, rfl⟩

/-- The tombstone-free step: scanning a freshly written non-tombstone
record inserts it into the keydir under reconstruction. -/
theorem scanStep_set (id off : Nat) (acc : RecAcc) (k v : List Nat) (ts : Nat)
    (hvt : v ≠ REMOVE_TOMESTONE) :
    scanStep id off acc (InnerEntry.new k v ts) =
      .ok { acc with
            kd := alInsert k ⟨id, off, (InnerEntry.new k v ts).encodedSize⟩ acc.kd } := by
  unfold scanStep
  rw [if_neg (by simp), if_neg (by simpa using hvt), InnerEntry.new_key]

/-- The tombstone step: scanning a freshly written tombstone removes
the key from the keydir under reconstruction. -/
theorem scanStep_tomb (id off : Nat) (acc : RecAcc) (k : List Nat) (ts : Nat) :
    ∃ acc₁, scanStep id off acc (InnerEntry.new k REMOVE_TOMESTONE ts) = .ok acc₁ ∧
      acc₁.kd = alRemove k acc.kd := by
  obtain ⟨acc₁, h⟩ := @scanStep_ok_of_valid id off acc _
    (InnerEntry.new_is_valid k REMOVE_TOMESTONE ts)
  refine ⟨acc₁, h, ?_⟩
  obtain ⟨_, hchar | hchar⟩ := scanStep_ok_char h
  · rw [hchar.2]
    rfl
  · exact absurd (by simp) hchar.1

theorem scanRecords_cons (id off : Nat) (acc : RecAcc) (r : InnerEntry)
    (t : List InnerEntry) :
    scanRecords id off acc (r :: t) =
      match scanStep id off acc r with
      | .ok acc₁ => scanRecords id (off + r.encodedSize) acc₁ t
      | .error e => .error e := rfl

theorem scanRecords_append (id : Nat) (f : List InnerEntry) (r : InnerEntry) :
    ∀ (off : Nat) (acc : RecAcc),
    scanRecords id off acc (f ++ [r]) =
      match scanRecords id off acc f with
      | .ok acc₁ => scanStep id (off + fileSize f) acc₁ r
      | .error e => .error e := by
  induction f with
  | nil =>
    intro off acc
    cases h : scanStep id off acc r with
    | ok acc₁ => simp [scanRecords, h]
    | error e => simp [scanRecords, h]
  | cons r₀ t ih =>
    intro off acc
    cases h : scanStep id off acc r₀ with
    | ok acc₁ =>
      simp only [List.cons_append, scanRecords_cons, h, ih, fileSize_cons, Nat.add_assoc]
    | error e =>
      simp only [List.cons_append, scanRecords_cons, h]

theorem scanRecords_ok (id : Nat) (f : List InnerEntry)
    (hval : ∀ r ∈ f, r.is_valid = true) :
    ∀ (off : Nat) (acc : RecAcc), ∃ acc', scanRecords id off acc f = .ok acc' := by
  induction f with
  | nil => exact fun off acc => ⟨acc, rfl⟩
  | cons r t ih =>
    intro off acc
    obtain ⟨acc₁, h₁⟩ := @scanStep_ok_of_valid id off acc _
      (hval r (by simp))
    obtain ⟨acc', h'⟩ := ih (fun x hx => hval x (by simp [hx])) (off + r.encodedSize) acc₁
    refine ⟨acc', ?_⟩
    rw [scanRecords_cons, h₁]
    exact h'

theorem scanRecords_nodup (id : Nat) (f : List InnerEntry) :
    ∀ (off : Nat) (acc acc₁ : RecAcc), scanRecords id off acc f = .ok acc₁ →
      (acc.kd.map Prod.fst).Nodup → (acc₁.kd.map Prod.fst).Nodup := by
  induction f with
  | nil =>
    intro off acc acc₁ h hnd
    cases h
    exact hnd
  | cons r t ih =>
    intro off acc acc₁ h hnd
    rw [scanRecords_cons] at h
    cases hstep : scanStep id off acc r with
    | error e => rw [hstep] at h; cases h
    | ok accm =>
      rw [hstep] at h
      obtain ⟨_, hchar | hchar⟩ := scanStep_ok_char hstep
      · exact ih _ _ _ h (by rw [hchar.2]; exact nodup_keys_alRemove _ _ hnd)
      · exact ih _ _ _ h (by rw [hchar.2]; exact nodup_keys_alInsert _ _ _ hnd)

theorem applyHints_nodup (id : Nat) (hs : List HintEntry) :
    ∀ kd, (kd.map Prod.fst).Nodup → ((applyHints id kd hs).map Prod.fst).Nodup := by
  induction hs with
  | nil => exact fun kd h => h
  | cons h₀ t ih =>
    intro kd hnd
    exact ih _ (nodup_keys_alInsert _ _ _ hnd)

theorem recoverIds_cons (files : List (Nat × List InnerEntry))
    (hints : List (Nat × List HintEntry)) (id : Nat) (rest : List Nat) (acc : RecAcc) :
    recoverIds files hints (id :: rest) acc =
      match alLookup hints id with
      | some hs => recoverIds files hints rest { acc with kd := applyHints id acc.kd hs }
      | none =>
        match scanRecords id 0 acc ((alLookup files id).getD []) with
        | .ok acc₁ => recoverIds files hints rest acc₁
        | .error e => .error e := rfl

theorem recoverIds_append (files : List (Nat × List InnerEntry))
    (hints : List (Nat × List HintEntry)) (l₁ l₂ : List Nat) :
    ∀ acc, recoverIds files hints (l₁ ++ l₂) acc =
      match recoverIds files hints l₁ acc with
      | .ok acc₁ => recoverIds files hints l₂ acc₁
      | .error e => .error e := by
  induction l₁ with
  | nil => intro acc; simp [recoverIds]
  | cons id rest ih =>
    intro acc
    cases hh : alLookup hints id with
    | some hs =>
      simp only [List.cons_append, recoverIds_cons, hh, ih]
    | none =>
      cases hsc : scanRecords id 0 acc ((alLookup files id).getD []) with
      | ok acc₁ => simp only [List.cons_append, recoverIds_cons, hh, hsc, ih]
      | error e => simp only [List.cons_append, recoverIds_cons, hh, hsc]

theorem recoverIds_congr {files₁ files₂ : List (Nat × List InnerEntry)}
    {hints₁ hints₂ : List (Nat × List HintEntry)} (l : List Nat)
    (hf : ∀ id ∈ l, alLookup files₁ id = alLookup files₂ id)
    (hh : ∀ id ∈ l, alLookup hints₁ id = alLookup hints₂ id) :
    ∀ acc, recoverIds files₁ hints₁ l acc = recoverIds files₂ hints₂ l acc := by
  induction l with
  | nil => intro acc; rfl
  | cons id rest ih =>
    intro acc
    have hf₀ := hf id (by simp)
    have hh₀ := hh id (by simp)
    have ihr := ih (fun x hx => hf x (by simp [hx])) (fun x hx => hh x (by simp [hx]))
    cases hhl : alLookup hints₁ id with
    | some hs =>
      rw [recoverIds_cons, recoverIds_cons, hhl, ← hh₀, hhl]
      exact ihr _
    | none =>
      rw [recoverIds_cons, recoverIds_cons, hhl, ← hh₀, hhl, ← hf₀]
      cases hsc : scanRecords id 0 acc ((alLookup files₁ id).getD []) with
      | ok acc₁ => exact ihr _
      | error e => rfl

theorem recoverIds_ok {files : List (Nat × List InnerEntry)}
    {hints : List (Nat × List HintEntry)} (l : List Nat)
    (hval : ∀ id ∈ l, ∀ r ∈ (alLookup files id).getD [], r.is_valid = true) :
    ∀ acc, ∃ acc', recoverIds files hints l acc = .ok acc' := by
  induction l with
  | nil => exact fun acc => ⟨acc, rfl⟩
  | cons id rest ih =>
    intro acc
    cases hh : alLookup hints id with
    | some hs =>
      obtain ⟨acc', h'⟩ := ih (fun x hx => hval x (by simp [hx]))
        { acc with kd := applyHints id acc.kd hs }
      refine ⟨acc', ?_⟩
      rw [recoverIds_cons, hh]
      exact h'
    | none =>
      obtain ⟨acc₁, h₁⟩ := scanRecords_ok id ((alLookup files id).getD [])
        (hval id (by simp)) 0 acc
      obtain ⟨acc', h'⟩ := ih (fun x hx => hval x (by simp [hx])) acc₁
      refine ⟨acc', ?_⟩
      rw [recoverIds_cons, hh, h₁]
      exact h'

theorem recoverIds_nodup {files : List (Nat × List InnerEntry)}
    {hints : List (Nat × List HintEntry)} (l : List Nat) :
    ∀ acc acc', recoverIds files hints l acc = .ok acc' →
      (acc.kd.map Prod.fst).Nodup → (acc'.kd.map Prod.fst).Nodup := by
  induction l with
  | nil =>
    intro acc acc' h hnd
    cases h
    exact hnd
  | cons id rest ih =>
    intro acc acc' h hnd
    rw [recoverIds_cons] at h
    cases hh : alLookup hints id with
    | some hs =>
      rw [hh] at h
      exact ih _ _ h (applyHints_nodup id hs acc.kd hnd)
    | none =>
      rw [hh] at h
      cases hsc : scanRecords id 0 acc ((alLookup files id).getD []) with
      | ok acc₁ =>
        rw [hsc] at h
        exact ih _ _ h (scanRecords_nodup id _ _ _ _ hsc hnd)
      | error e =>
        rw [hsc] at h
        cases h

theorem alLookup_hints_none_of_lt {hints : List (Nat × List HintEntry)} {A : Nat}
    (h : ∀ p ∈ hints, p.1 < A) : alLookup hints A = none :=
  alLookup_none_of_forall_ne (fun p hp => Nat.ne_of_lt (h p hp))

theorem ids_le_active {s : Store} (hInv : StoreInv s) :
    ∀ x ∈ s.files.map Prod.fst, x ≤ s.active_id := by
  intro x hx
  obtain ⟨p, hp, rfl⟩ := List.mem_map.mp hx
  exact hInv.active_max p hp

theorem recoverIds_single_scan (files : List (Nat × List InnerEntry))
    (hints : List (Nat × List HintEntry)) (A : Nat) (f : List InnerEntry)
    (hhint : alLookup hints A = none) (hfl : alLookup files A = some f) (acc : RecAcc) :
    recoverIds files hints [A] acc =
      match scanRecords A 0 acc f with
      | .ok a => .ok a
      | .error e => .error e := by
  rw [recoverIds_cons, hhint, hfl]
  simp only [Option.getD_some]
  cases hsc : scanRecords A 0 acc f with
  | ok a => rfl
  | error e => rfl

/-- Appending one record to the active file turns recovery into
"recover the old log, then apply one scan step at the tail offset". -/
theorem recover_after_write {s W1 : Store} {info : Store.WriteInfo} {af : List InnerEntry}
    {r : InnerEntry} (hInv : StoreInv s) (hws : Store.WriteSpec s W1 info af r) :
    recoverAll W1.files s.hints =
      match recoverAll s.files s.hints with
      | .ok acc => scanStep W1.active_id (fileSize af) acc r
      | .error e => .error e := by
  have hAmem : s.active_id ∈ s.files.map Prod.fst :=
    (alLookup_isSome_iff_mem _ _).mp hInv.active_mem
  rcases hshape : hws.shape with ⟨hA, hafl, hfe⟩ | ⟨hafE, hfe, hfresh⟩
  · -- in-place append to the current max id
    have hkeys : W1.files.map Prod.fst = s.files.map Prod.fst := by
      rw [hfe, keys_alInsert, if_pos hAmem]
    have hsortdec : List.insertionSort (· ≤ ·) (s.files.map Prod.fst)
        = List.insertionSort (· ≤ ·) ((s.files.map Prod.fst).erase s.active_id)
          ++ [s.active_id] :=
      sort_eq_erase_append_max hAmem (ids_le_active hInv)
    have hcongr : ∀ acc, recoverIds W1.files s.hints
        (List.insertionSort (· ≤ ·) ((s.files.map Prod.fst).erase s.active_id)) acc
        = recoverIds s.files s.hints
          (List.insertionSort (· ≤ ·) ((s.files.map Prod.fst).erase s.active_id)) acc := by
      apply recoverIds_congr
      · intro id hid
        rw [List.mem_insertionSort] at hid
        have hne : id ≠ s.active_id :=
          ((hInv.files_nodup.mem_erase_iff).mp hid).1
        rw [← hA] at hne
        exact hws.other id hne
      · intro id hid
        rfl
    have hhintA : alLookup s.hints s.active_id = none :=
      alLookup_hints_none_of_lt hInv.hints_lt
    have hW1A : alLookup W1.files s.active_id = some (af ++ [r]) := by
      rw [← hA]
      exact hws.lkp
    rw [recoverAll, recoverAll, hkeys, hsortdec,
      recoverIds_append, recoverIds_append, hcongr]
    cases hpre : recoverIds s.files s.hints
        (List.insertionSort (· ≤ ·) ((s.files.map Prod.fst).erase s.active_id))
        ⟨[], 0, 0⟩ with
    | error e => rfl
    | ok acc₁ =>
      show recoverIds W1.files s.hints [s.active_id] acc₁
          = match recoverIds s.files s.hints [s.active_id] acc₁ with
            | .ok acc => scanStep W1.active_id (fileSize af) acc r
            | .error e => .error e
      rw [recoverIds_single_scan W1.files s.hints s.active_id (af ++ [r]) hhintA hW1A,
        recoverIds_single_scan s.files s.hints s.active_id af hhintA hafl,
        scanRecords_append]
      cases hscan : scanRecords s.active_id 0 acc₁ af with
      | error e => rfl
      | ok a =>
        rw [Nat.zero_add, hA]
        show (match scanStep s.active_id (fileSize af) a r with
              | .ok x => Except.ok x
              | .error e => Except.error e) = scanStep s.active_id (fileSize af) a r
        cases scanStep s.active_id (fileSize af) a r <;> rfl
  · -- fresh file: recovery scans it last, as the single record [r]
    have hkeys : W1.files.map Prod.fst = s.files.map Prod.fst ++ [W1.active_id] := by
      rw [hfe, keys_alInsert, if_neg hfresh]
    have hmax : ∀ x ∈ s.files.map Prod.fst ++ [W1.active_id], x ≤ W1.active_id := by
      intro x hx
      rcases List.mem_append.mp hx with hx₁ | hx₁
      · exact le_trans (ids_le_active hInv x hx₁) hws.aLe
      · rw [List.mem_singleton] at hx₁
        omega
    have herase : (s.files.map Prod.fst ++ [W1.active_id]).erase W1.active_id
        = s.files.map Prod.fst := by
      rw [List.erase_append_right _ hfresh, List.erase_cons_head, List.append_nil]
    have hsortdec : List.insertionSort (· ≤ ·) (s.files.map Prod.fst ++ [W1.active_id])
        = List.insertionSort (· ≤ ·) (s.files.map Prod.fst) ++ [W1.active_id] := by
      rw [sort_eq_erase_append_max (by simp) hmax, herase]
    have hcongr : ∀ acc, recoverIds W1.files s.hints
        (List.insertionSort (· ≤ ·) (s.files.map Prod.fst)) acc
        = recoverIds s.files s.hints
          (List.insertionSort (· ≤ ·) (s.files.map Prod.fst)) acc := by
      apply recoverIds_congr
      · intro id hid
        rw [List.mem_insertionSort] at hid
        have hne : id ≠ W1.active_id := by
          intro hh
          rw [hh] at hid
          exact hfresh hid
        exact hws.other id hne
      · intro id hid
        rfl
    have hhintA : alLookup s.hints W1.active_id = none := by
      apply alLookup_none_of_forall_ne
      intro p hp
      have := hInv.hints_lt p hp
      have := hws.aLe
      omega
    have hW1A : alLookup W1.files W1.active_id = some [r] := by
      have := hws.lkp
      rw [hafE] at this
      simpa using this
    rw [recoverAll, recoverAll, hkeys, hsortdec, recoverIds_append, hcongr]
    cases hpre : recoverIds s.files s.hints
        (List.insertionSort (· ≤ ·) (s.files.map Prod.fst)) ⟨[], 0, 0⟩ with
    | error e => rfl
    | ok acc₁ =>
      show recoverIds W1.files s.hints [W1.active_id] acc₁
          = scanStep W1.active_id (fileSize af) acc₁ r
      rw [recoverIds_single_scan W1.files s.hints W1.active_id [r] hhintA hW1A, hafE,
        fileSize_nil, scanRecords_cons]
      cases scanStep W1.active_id 0 acc₁ r <;> rfl

/-! ## The recovery-equivalence invariant -/

/-- Recovery over the current disk rebuilds exactly the in-memory
keydir (as a map). -/
def RecEq (s : Store) : Prop :=
  ∃ acc, recoverAll s.files s.hints = .ok acc ∧
    (∀ k, alLookup acc.kd k = alLookup s.keydir k)

theorem recover_ok {s : Store} (hInv : StoreInv s) :
    ∃ acc, recoverAll s.files s.hints = .ok acc := by
  apply recoverIds_ok
  intro id hid r hr
  cases hfl : alLookup s.files id with
  | none =>
    rw [hfl] at hr
    cases hr
  | some f =>
    rw [hfl] at hr
    exact hInv.log_valid (id, f) (alLookup_mem hfl) r hr

theorem receq_after_set {s s₂ : Store} (hInv : StoreInv s) (hrec : RecEq s)
    {k v : List Nat} {ts : Nat} (hvt : v ≠ REMOVE_TOMESTONE)
    (hset : s.set k v ts = .ok s₂) : RecEq s₂ := by
  by_cases hk : k.length ≤ s.config.max_key_size
  · by_cases hv : v.length ≤ s.config.max_value_size
    · obtain ⟨s₂', heq, _, _, hfiles, hhints, _, _, hkd⟩ :=
        @Store.set_ok_spec s hInv k v ts hk hv
      rw [hset] at heq
      obtain rfl := (Except.ok.inj heq).symm
      obtain ⟨af, hws⟩ := Store.write_spec hInv k v ts
      obtain ⟨acc, hra, hlk⟩ := hrec
      refine ⟨{ acc with
                kd := alInsert k ⟨(s.write k v ts).1.active_id, fileSize af,
                  (InnerEntry.new k v ts).encodedSize⟩ acc.kd }, ?_, ?_⟩
      · rw [hfiles, hhints, recover_after_write hInv hws, hra]
        exact scanStep_set _ _ acc k v ts hvt
      · intro k'
        dsimp only
        rw [hkd]
        by_cases hk' : k' = k
        · subst hk'
          rw [alLookup_alInsert_self, alLookup_alInsert_self, hws.fid, hws.foff, hws.fsize]
        · rw [alLookup_alInsert_ne _ _ hk', alLookup_alInsert_ne _ _ hk']
          exact hlk k'
    · rw [Store.set_err_value (by omega) (by omega)] at hset
      cases hset
  · rw [Store.set_err_key (by omega)] at hset
    cases hset

theorem receq_after_remove {s s₂ : Store} (hInv : StoreInv s) (hrec : RecEq s)
    {k : List Nat} {ts : Nat} (hrem : s.remove k ts = .ok s₂) : RecEq s₂ := by
  cases hold : alLookup s.keydir k with
  | none =>
    rw [Store.remove_err hold] at hrem
    cases hrem
  | some old =>
    obtain ⟨s₂', heq, _, _, hfiles, hhints, _, _, hkd, _⟩ :=
      @Store.remove_ok_spec s hInv k ts old hold
    rw [hrem] at heq
    obtain rfl := (Except.ok.inj heq).symm
    obtain ⟨af, hws⟩ := Store.write_spec hInv k REMOVE_TOMESTONE ts
    obtain ⟨acc, hra, hlk⟩ := hrec
    obtain ⟨acc₁, hstep, hkd₁⟩ := scanStep_tomb (s.write k REMOVE_TOMESTONE ts).1.active_id
      (fileSize af) acc k ts
    refine ⟨acc₁, ?_, ?_⟩
    · rw [hfiles, hhints, recover_after_write hInv hws, hra]
      exact hstep
    · intro k'
      rw [hkd, hkd₁]
      by_cases hk' : k' = k
      · subst hk'
        rw [alLookup_alRemove_self, alLookup_alRemove_self]
      · rw [alLookup_alRemove_ne _ hk', alLookup_alRemove_ne _ hk']
        exact hlk k'

/-- After writing a tombstone as a value via `set`, recovery no longer
has the key (what `Store::build_keydir` does to the reopened store). -/
theorem recover_after_set_tomb {s s₂ : Store} (hInv : StoreInv s)
    {k : List Nat} {ts : Nat} (hset : s.set k REMOVE_TOMESTONE ts = .ok s₂) :
    ∃ acc₂, recoverAll s₂.files s₂.hints = .ok acc₂ ∧ alLookup acc₂.kd k = none := by
  by_cases hk : k.length ≤ s.config.max_key_size
  · by_cases hv : (REMOVE_TOMESTONE : List Nat).length ≤ s.config.max_value_size
    · obtain ⟨s₂', heq, _, _, hfiles, hhints, _, _, hkd⟩ :=
        @Store.set_ok_spec s hInv k REMOVE_TOMESTONE ts hk hv
      rw [hset] at heq
      obtain rfl := (Except.ok.inj heq).symm
      obtain ⟨af, hws⟩ := Store.write_spec hInv k REMOVE_TOMESTONE ts
      obtain ⟨acc, hra⟩ := recover_ok hInv
      obtain ⟨acc₁, hstep, hkd₁⟩ := scanStep_tomb
        (s.write k REMOVE_TOMESTONE ts).1.active_id (fileSize af) acc k ts
      refine ⟨acc₁, ?_, ?_⟩
      · rw [hfiles, hhints, recover_after_write hInv hws, hra]
        exact hstep
      · rw [hkd₁]
        exact alLookup_alRemove_self _ _
    · rw [Store.set_err_value (by omega) (by omega)] at hset
      cases hset
  · rw [Store.set_err_key (by omega)] at hset
    cases hset

/-! ## Close and reopen -/

theorem closeDisk_of_ne {s : Store} (h : s.activeFile ≠ []) : s.closeDisk = s.files := by
  rw [Store.closeDisk, if_neg]
  intro hemp
  exact h (List.isEmpty_iff.mp hemp)

/-- Unlinking the empty active file does not change what recovery
computes: its scan contributes nothing, and it has no hint file. -/
theorem recover_closeDisk {s : Store} (hInv : StoreInv s) :
    recoverAll s.closeDisk s.hints = recoverAll s.files s.hints := by
  by_cases hemp : s.activeFile = []
  · have hafl : alLookup s.files s.active_id = some [] := by
      obtain ⟨af₀, haf₀⟩ := Option.isSome_iff_exists.mp hInv.active_mem
      have : s.activeFile = af₀ := by simp [Store.activeFile, haf₀]
      rw [haf₀, ← this, hemp]
    have hcd : s.closeDisk = alRemove s.active_id s.files := by
      rw [Store.closeDisk, if_pos (List.isEmpty_iff.mpr hemp)]
    have hAmem : s.active_id ∈ s.files.map Prod.fst :=
      (alLookup_isSome_iff_mem _ _).mp hInv.active_mem
    have hkeys : (alRemove s.active_id s.files).map Prod.fst
        = (s.files.map Prod.fst).filter (fun x => x != s.active_id) :=
      keys_alRemove _ _
    have herase : (s.files.map Prod.fst).erase s.active_id
        = (s.files.map Prod.fst).filter (fun x => x != s.active_id) :=
      hInv.files_nodup.erase_eq_filter _
    have hsortdec : List.insertionSort (· ≤ ·) (s.files.map Prod.fst)
        = List.insertionSort (· ≤ ·) ((s.files.map Prod.fst).erase s.active_id)
          ++ [s.active_id] :=
      sort_eq_erase_append_max hAmem (ids_le_active hInv)
    have hhintA : alLookup s.hints s.active_id = none :=
      alLookup_hints_none_of_lt hInv.hints_lt
    have hcongr : ∀ acc, recoverIds (alRemove s.active_id s.files) s.hints
        (List.insertionSort (· ≤ ·) ((s.files.map Prod.fst).erase s.active_id)) acc
        = recoverIds s.files s.hints
          (List.insertionSort (· ≤ ·) ((s.files.map Prod.fst).erase s.active_id)) acc := by
      apply recoverIds_congr
      · intro id hid
        rw [List.mem_insertionSort] at hid
        exact alLookup_alRemove_ne _ ((hInv.files_nodup.mem_erase_iff).mp hid).1
      · intro id hid
        rfl
    rw [recoverAll, recoverAll, hcd, hkeys, ← herase, hsortdec, recoverIds_append, hcongr]
    cases hpre : recoverIds s.files s.hints
        (List.insertionSort (· ≤ ·) ((s.files.map Prod.fst).erase s.active_id))
        ⟨[], 0, 0⟩ with
    | error e => rfl
    | ok acc₁ =>
      show Except.ok acc₁ = recoverIds s.files s.hints [s.active_id] acc₁
      rw [recoverIds_cons, hhintA, hafl]
      rfl
  · rw [closeDisk_of_ne hemp]

theorem openStore_eq {files : List (Nat × List InnerEntry)}
    {hints : List (Nat × List HintEntry)} {cfg : Config} {acc : RecAcc}
    (h : recoverAll files hints = .ok acc) :
    openStore files hints cfg = .ok
      { files := alInsert (listMax (files.map Prod.fst) + 1) [] files,
        hints := hints,
        active_id := listMax (files.map Prod.fst) + 1,
        keydir := acc.kd,
        stats := { size_of_stale_entries := acc.size_of_stale_entries,
                   total_stale_entries := acc.total_stale_entries,
                   total_active_entries := acc.kd.length,
                   total_data_files := files.length + 1,
                   size_of_all_data_files := (files.map (fun p => fileSize p.2)).sum },
        config := cfg } := by
  rw [openStore, h]
  rfl

/-- The store `Store::open` produces on a fresh (empty) directory. -/
def openInit (cfg : Config) : Store :=
  { files := [(1, [])],
    hints := [],
    active_id := 1,
    keydir := [],
    stats := { size_of_stale_entries := 0,
               total_stale_entries := 0,
               total_active_entries := 0,
               total_data_files := 1,
               size_of_all_data_files := 0 },
    config := cfg }

theorem openStore_empty (cfg : Config) : openStore [] [] cfg = .ok (openInit cfg) := rfl

theorem storeInv_openInit (cfg : Config) : StoreInv (openInit cfg) := by
  constructor
  · exact Option.isSome_some
  · intro p hp
    rcases List.mem_singleton.mp hp with rfl
    exact le_refl _
  · exact List.nodup_singleton _
  · exact List.nodup_nil
  · intro k e he
    cases he
  · intro p hp
    cases hp
  · intro p hp
    cases hp
  · intro p hp
    rcases List.mem_singleton.mp hp with rfl
    intro r hr
    cases hr
  · rfl

theorem receq_openInit (cfg : Config) : RecEq (openInit cfg) := by
  refine ⟨⟨[], 0, 0⟩, ?_, ?_⟩
  · rfl
  · intro k
    rfl

/-! ## Compaction lemmas -/

theorem entryAt_prefix {f : List InnerEntry} {off : Nat} {r : InnerEntry}
    (h : entryAt f off = some r) (g : List InnerEntry) : entryAt (f ++ g) off = some r := by
  induction g generalizing f with
  | nil => simpa using h
  | cons x t ih =>
    have h1 := entryAt_append_of_some h x
    have h2 := ih h1
    rw [List.append_assoc] at h2
    simpa using h2

theorem applyHints_append (id : Nat) (kd0 : List (List Nat × KeyDirEntry))
    (hs : List HintEntry) (x : HintEntry) :
    applyHints id kd0 (hs ++ [x]) =
      alInsert x.key ⟨id, x.offset, x.size⟩ (applyHints id kd0 hs) := by
  simp [applyHints, List.foldl_append]

/-- Full characterisation of the `compact` copy loop, by induction over
the processed keydir slice. -/
theorem compactLoop_spec (C : Nat) (files : List (Nat × List InnerEntry)) :
    ∀ (input : List (List Nat × KeyDirEntry)) (cfile : List InnerEntry)
      (kd : List (List Nat × KeyDirEntry)) (hs : List HintEntry),
    (∀ p ∈ input, ∃ f r, alLookup files p.2.segment_id = some f ∧
        entryAt f p.2.offset = some r ∧ r.encodedSize = p.2.size ∧ r.key = p.1 ∧
        r.is_valid = true) →
    (input.map Prod.fst).Nodup →
    (∀ x ∈ input.map Prod.fst, x ∉ kd.map Prod.fst) →
    (∀ x ∈ cfile, x.is_valid = true) →
    ∃ cfile' kd' hs',
      compactLoop C files input cfile kd hs = some (cfile', kd', hs') ∧
      (∃ g, cfile' = cfile ++ g) ∧
      kd'.map Prod.fst = kd.map Prod.fst ++ input.map Prod.fst ∧
      (∀ k', alLookup input k' = none → alLookup kd' k' = alLookup kd k') ∧
      (∀ k' e, alLookup input k' = some e → ∃ f r off,
        alLookup files e.segment_id = some f ∧ entryAt f e.offset = some r ∧
        alLookup kd' k' = some ⟨C, off, e.size⟩ ∧ entryAt cfile' off = some r ∧
        r.encodedSize = e.size ∧ r.key = k' ∧ r.is_valid = true) ∧
      (∀ x ∈ cfile', x.is_valid = true) ∧
      hs'.length = hs.length + input.length ∧
      (∀ kd0, applyHints C kd0 hs = kd → applyHints C kd0 hs' = kd') := by
  intro input
  induction input with
  | nil =>
    intro cfile kd hs hok hnd hdisj hcv
    refine ⟨cfile, kd, hs, rfl, ⟨[], by simp⟩, by simp, ?_, ?_, hcv, by simp, ?_⟩
    · intro k' h
      rfl
    · intro k' e he
      cases he
    · intro kd0 h
      exact h
  | cons p rest ih =>
    obtain ⟨k, e⟩ := p
    intro cfile kd hs hok hnd hdisj hcv
    obtain ⟨f, r, hf, hr, hsz, hkey, hval⟩ := hok (k, e) (by simp)
    have hf₂ : alLookup files e.segment_id = some f := hf
    have hr₂ : entryAt f e.offset = some r := hr
    have hsz₂ : r.encodedSize = e.size := hsz
    have hkey₂ : r.key = k := hkey
    have hknotin : k ∉ rest.map Prod.fst := by
      rw [List.map_cons, List.nodup_cons] at hnd
      exact hnd.1
    have hndr : (rest.map Prod.fst).Nodup := by
      rw [List.map_cons, List.nodup_cons] at hnd
      exact hnd.2
    have hkd₁keys : (kd ++ [(k, (⟨C, fileSize cfile, e.size⟩ : KeyDirEntry))]).map Prod.fst
        = kd.map Prod.fst ++ [k] := by
      simp
    obtain ⟨cfile', kd', hs', hloop, ⟨g, hg⟩, hkeys, hnone, hsome, hcv', hlen, happ⟩ :=
      ih (cfile ++ [r]) (kd ++ [(k, ⟨C, fileSize cfile, e.size⟩)])
        (hs ++ [⟨k, fileSize cfile, e.size⟩])
        (fun q hq => hok q (by simp [hq]))
        hndr
        (by
          intro x hx
          rw [hkd₁keys, List.mem_append, List.mem_singleton]
          push_neg
          refine ⟨hdisj x (by simp [hx]), ?_⟩
          intro hxk
          rw [hxk] at hx
          exact hknotin hx)
        (by
          intro x hx
          rcases List.mem_append.mp hx with hx₁ | hx₁
          · exact hcv x hx₁
          · rw [List.mem_singleton] at hx₁
            subst hx₁
            exact hval)
    have hstep : compactLoop C files ((k, e) :: rest) cfile kd hs
        = compactLoop C files rest (cfile ++ [r])
            (kd ++ [(k, ⟨C, fileSize cfile, e.size⟩)])
            (hs ++ [⟨k, fileSize cfile, e.size⟩]) := by
      simp only [compactLoop, hf₂, hr₂, hsz₂, if_true]
    refine ⟨cfile', kd', hs', ?_, ?_, ?_, ?_, ?_, hcv', ?_, ?_⟩
    · rw [hstep]
      exact hloop
    · exact ⟨[r] ++ g, by rw [hg, List.append_assoc]⟩
    · rw [hkeys, hkd₁keys, List.append_assoc]
      rfl
    · intro k' h
      rw [alLookup_cons] at h
      by_cases hk' : k' = k
      · rw [if_pos hk'] at h
        cases h
      · rw [if_neg hk'] at h
        rw [hnone k' h, alLookup_append]
        cases hlkd : alLookup kd k' with
        | some w => rfl
        | none => simp [hk']
    · intro k' e' he'
      rw [alLookup_cons] at he'
      by_cases hk' : k' = k
      · rw [if_pos hk'] at he'
        cases he'
        subst hk'
        have hrestnone : alLookup rest k' = none := by
          apply alLookup_none_of_forall_ne
          intro q hq hqk
          exact hknotin (by rw [← hqk]; exact List.mem_map.mpr ⟨q, hq, rfl⟩)
        have hkdnone : alLookup kd k' = none := by
          apply alLookup_none_of_forall_ne
          intro q hq hqk
          exact hdisj k' (by simp) (by rw [← hqk]; exact List.mem_map.mpr ⟨q, hq, rfl⟩)
        refine ⟨f, r, fileSize cfile, hf₂, hr₂, ?_, ?_, hsz₂, hkey₂, hval⟩
        · rw [hnone k' hrestnone, alLookup_append, hkdnone]
          simp
        · rw [hg]
          exact entryAt_prefix (entryAt_tail cfile r) g
      · rw [if_neg hk'] at he'
        exact hsome k' e' he'
    · rw [hlen]
      simp only [List.length_append, List.length_cons, List.length_nil]
      omega
    · intro kd0 h
      apply happ
      rw [applyHints_append, h]
      exact alInsert_of_not_mem _ (hdisj k (by simp))

theorem applyHints_nil (id : Nat) (kd : List (List Nat × KeyDirEntry)) :
    applyHints id kd [] = kd := rfl

theorem sorted_pair_swap (a : Nat) :
    List.insertionSort (· ≤ ·) [a + 1 + 1, a + 1] = [a + 1, a + 1 + 1] := by
  have h : ¬ (a + 1 + 1 ≤ a + 1) := by omega
  simp [List.insertionSort, List.orderedInsert, h]

theorem sortedKeys_eq_of_perm {l₁ l₂ : List (List Nat)} (h : l₁.Perm l₂) :
    List.insertionSort (· ≤ ·) l₁ = List.insertionSort (· ≤ ·) l₂ :=
  List.eq_of_perm_of_sorted
    ((List.perm_insertionSort _ _).trans (h.trans (List.perm_insertionSort _ _).symm))
    (List.sorted_insertionSort _ _) (List.sorted_insertionSort _ _)

/-- Unfolding `Store::compact` once the copy loop's result is known. -/
theorem Store.compact_eq {s : Store} {cfile : List InnerEntry}
    {kd : List (List Nat × KeyDirEntry)} {hs : List HintEntry}
    (h : compactLoop (s.active_id + 1)
      (s.new_active_data_file (some (s.active_id + 1 + 1))).files
      (List.insertionSort (fun a b => a.1 ≤ b.1)
        (s.new_active_data_file (some (s.active_id + 1 + 1))).keydir) [] [] []
      = some (cfile, kd, hs)) :
    s.compact = some
      { files := alInsert (s.active_id + 1) cfile
          ((s.new_active_data_file (some (s.active_id + 1 + 1))).files.filter
            (fun p => decide (s.active_id + 1 ≤ p.1))),
        hints :=
          (if hs.isEmpty
           then (s.new_active_data_file (some (s.active_id + 1 + 1))).hints.filter
             (fun p => ! (decide (p.1 < s.active_id + 1)
               && (alLookup (s.new_active_data_file (some (s.active_id + 1 + 1))).files p.1).isSome))
           else (s.new_active_data_file (some (s.active_id + 1 + 1))).hints.filter
             (fun p => ! (decide (p.1 < s.active_id + 1)
               && (alLookup (s.new_active_data_file (some (s.active_id + 1 + 1))).files p.1).isSome))
             ++ [(s.active_id + 1, hs)]),
        active_id := s.active_id + 1 + 1,
        keydir := kd,
        stats :=
          { total_data_files :=
              (alInsert (s.active_id + 1) cfile
                ((s.new_active_data_file (some (s.active_id + 1 + 1))).files.filter
                  (fun p => decide (s.active_id + 1 ≤ p.1)))).length,
            total_active_entries := kd.length,
            total_stale_entries := 0,
            size_of_stale_entries := 0,
            size_of_all_data_files := fileSize cfile },
        config := s.config } := by
  simp only [Store.compact]
  rw [h]
  rfl

/-- Full specification of a successful `Store::compact` from any state
satisfying the invariant: it succeeds, preserves every `get` answer and
the key enumeration, zeroes the stale counters, and leaves a store
whose recovery rebuilds its keydir exactly. -/
theorem Store.compact_spec {s : Store} (hInv : StoreInv s) :
    ∃ s₂, s.compact = some s₂ ∧ StoreInv s₂ ∧ RecEq s₂ ∧
      (∀ k, s₂.get k = s.get k) ∧
      s₂.keydir.length = s.keydir.length ∧
      s₂.stats.total_stale_entries = 0 ∧
      s₂.stats.size_of_stale_entries = 0 ∧
      s₂.config = s.config ∧
      s₂.keys = s.keys := by
  have hperm : (List.insertionSort (fun a b => a.1 ≤ b.1) s.keydir).Perm s.keydir :=
    List.perm_insertionSort _ _
  have hsknd : ((List.insertionSort (fun a b => a.1 ≤ b.1) s.keydir).map Prod.fst).Nodup :=
    ((hperm.map Prod.fst).nodup_iff).mpr hInv.keydir_nodup
  have hsklk : ∀ k, alLookup (List.insertionSort (fun a b => a.1 ≤ b.1) s.keydir) k
      = alLookup s.keydir k := fun k => alLookup_eq_of_perm hperm hsknd k
  have hfresh : s.active_id + 1 + 1 ∉ s.files.map Prod.fst := by
    intro hm
    have := ids_le_active hInv _ hm
    omega
  have hok : ∀ p ∈ List.insertionSort (fun a b => a.1 ≤ b.1) s.keydir,
      ∃ f r, alLookup (alInsert (s.active_id + 1 + 1) [] s.files) p.2.segment_id = some f ∧
        entryAt f p.2.offset = some r ∧ r.encodedSize = p.2.size ∧ r.key = p.1 ∧
        r.is_valid = true := by
    intro p hp
    have hpmem : p ∈ s.keydir := hperm.mem_iff.mp hp
    have hlk : alLookup s.keydir p.1 = some p.2 :=
      alLookup_of_mem_nodup hInv.keydir_nodup hpmem
    obtain ⟨f, r, hf, hr, hsz, hkey, hval⟩ := hInv.keydir_ok p.1 p.2 hlk
    have hne : p.2.segment_id ≠ s.active_id + 1 + 1 := by
      have hmem : p.2.segment_id ∈ s.files.map Prod.fst :=
        (alLookup_isSome_iff_mem _ _).mp (by rw [hf]; exact Option.isSome_some)
      have := ids_le_active hInv _ hmem
      omega
    refine ⟨f, r, ?_, hr, hsz, hkey, hval⟩
    rw [alLookup_alInsert_ne _ _ hne]
    exact hf
  obtain ⟨cfile', kd', hs', hloop, ⟨g, hg⟩, hkeys, hnone, hsome, hcv', hlen, happ⟩ :=
    compactLoop_spec (s.active_id + 1) (alInsert (s.active_id + 1 + 1) [] s.files)
      (List.insertionSort (fun a b => a.1 ≤ b.1) s.keydir) [] [] []
      hok hsknd (by intro x hx; simp) (by intro x hx; cases hx)
  have hloop' : compactLoop (s.active_id + 1)
      (s.new_active_data_file (some (s.active_id + 1 + 1))).files
      (List.insertionSort (fun a b => a.1 ≤ b.1)
        (s.new_active_data_file (some (s.active_id + 1 + 1))).keydir) [] [] []
      = some (cfile', kd', hs') := hloop
  have hc := Store.compact_eq hloop'
  have hkeys' : kd'.map Prod.fst
      = (List.insertionSort (fun a b => a.1 ≤ b.1) s.keydir).map Prod.fst := by
    simpa using hkeys
  have hfilter : (s.new_active_data_file (some (s.active_id + 1 + 1))).files.filter
      (fun p => decide (s.active_id + 1 ≤ p.1)) = [(s.active_id + 1 + 1, [])] := by
    rw [show (s.new_active_data_file (some (s.active_id + 1 + 1))).files
        = alInsert (s.active_id + 1 + 1) [] s.files from rfl,
      alInsert_of_not_mem _ hfresh, List.filter_append]
    have h1 : s.files.filter (fun p => decide (s.active_id + 1 ≤ p.1)) = [] := by
      rw [List.filter_eq_nil_iff]
      intro p hp
      have := hInv.active_max p hp
      simp only [decide_eq_true_eq]
      omega
    have h2 : s.active_id + 1 ≤ s.active_id + 1 + 1 := by omega
    rw [h1]
    simp [List.filter_cons, h2]
  have hhints₁ : (s.new_active_data_file (some (s.active_id + 1 + 1))).hints.filter
      (fun p => ! (decide (p.1 < s.active_id + 1)
        && (alLookup (s.new_active_data_file (some (s.active_id + 1 + 1))).files p.1).isSome))
      = [] := by
    rw [show (s.new_active_data_file (some (s.active_id + 1 + 1))).hints = s.hints from rfl,
      List.filter_eq_nil_iff]
    intro p hp
    have hlt := hInv.hints_lt p hp
    have hsub := hInv.hints_sub p hp
    have hne : p.1 ≠ s.active_id + 1 + 1 := by omega
    have hlkF : alLookup (s.new_active_data_file (some (s.active_id + 1 + 1))).files p.1
        = alLookup s.files p.1 := by
      rw [show (s.new_active_data_file (some (s.active_id + 1 + 1))).files
          = alInsert (s.active_id + 1 + 1) [] s.files from rfl]
      exact alLookup_alInsert_ne _ _ hne
    have hdec : p.1 < s.active_id + 1 := by omega
    simp [hlkF, hsub, hdec]
  have hfiles₂ : alInsert (s.active_id + 1) cfile'
      ((s.new_active_data_file (some (s.active_id + 1 + 1))).files.filter
        (fun p => decide (s.active_id + 1 ≤ p.1)))
      = [(s.active_id + 1 + 1, []), (s.active_id + 1, cfile')] := by
    rw [hfilter]
    have hne : ¬ (s.active_id + 1 = s.active_id + 1 + 1) := by omega
    simp [alInsert, hne]
  have hne21 : ¬ (s.active_id + 1 + 1 = s.active_id + 1) := by omega
  have hne12 : ¬ (s.active_id + 1 = s.active_id + 1 + 1) := by omega
  have hlkF1 : alLookup [(s.active_id + 1 + 1, ([] : List InnerEntry)),
      (s.active_id + 1, cfile')] (s.active_id + 1) = some cfile' := by
    rw [alLookup_cons, if_neg hne12, alLookup_cons, if_pos rfl]
  have hlkF2 : alLookup [(s.active_id + 1 + 1, ([] : List InnerEntry)),
      (s.active_id + 1, cfile')] (s.active_id + 1 + 1) = some [] := by
    rw [alLookup_cons, if_pos rfl]
  refine ⟨{ files := [(s.active_id + 1 + 1, []), (s.active_id + 1, cfile')],
            hints := (if hs'.isEmpty then [] else [(s.active_id + 1, hs')]),
            active_id := s.active_id + 1 + 1,
            keydir := kd',
            stats := { size_of_stale_entries := 0,
                       total_stale_entries := 0,
                       total_active_entries := kd'.length,
                       total_data_files := 2,
                       size_of_all_data_files := fileSize cfile' },
            config := s.config }, ?_, ?_, ?_, ?_, ?_, ?_, ?_, ?_, ?_⟩
  · rw [hc, hfiles₂, hhints₁]
    simp
  · constructor
    · show (alLookup [(s.active_id + 1 + 1, ([] : List InnerEntry)),
          (s.active_id + 1, cfile')] (s.active_id + 1 + 1)).isSome
      rw [hlkF2]
      exact Option.isSome_some
    · intro p hp
      rcases List.mem_cons.mp hp with rfl | hp₁
      · exact le_refl _
      · rcases List.mem_singleton.mp hp₁ with rfl
        show s.active_id + 1 ≤ s.active_id + 1 + 1
        omega
    · show (List.map Prod.fst [(s.active_id + 1 + 1, ([] : List InnerEntry)),
          (s.active_id + 1, cfile')]).Nodup
      simp only [List.map_cons, List.map_nil]
      refine List.nodup_cons.mpr ⟨?_, List.nodup_singleton _⟩
      rw [List.mem_singleton]
      omega
    · show (kd'.map Prod.fst).Nodup
      rw [hkeys']
      exact hsknd
    · intro k e hke
      have hke' : alLookup kd' k = some e := hke
      have hkmem : k ∈ kd'.map Prod.fst :=
        (alLookup_isSome_iff_mem _ _).mp (by rw [hke']; exact Option.isSome_some)
      rw [hkeys'] at hkmem
      obtain ⟨e₀, he₀⟩ := Option.isSome_iff_exists.mp
        ((alLookup_isSome_iff_mem _ _).mpr hkmem)
      obtain ⟨f, r, off, hfl, hrl, hkd'l, hcf, hsz, hkey, hval⟩ := hsome k e₀ he₀
      have he : e = ⟨s.active_id + 1, off, e₀.size⟩ := by
        rw [hke'] at hkd'l
        exact Option.some.inj hkd'l
      subst he
      exact ⟨cfile', r, hlkF1, hcf, hsz, hkey, hval⟩
    · intro p hp
      have hp' : p ∈ (if hs'.isEmpty then ([] : List (Nat × List HintEntry))
          else [(s.active_id + 1, hs')]) := hp
      by_cases he : hs'.isEmpty
      · rw [if_pos he] at hp'
        cases hp'
      · rw [if_neg he] at hp'
        rcases List.mem_singleton.mp hp' with rfl
        show s.active_id + 1 < s.active_id + 1 + 1
        omega
    · intro p hp
      have hp' : p ∈ (if hs'.isEmpty then ([] : List (Nat × List HintEntry))
          else [(s.active_id + 1, hs')]) := hp
      by_cases he : hs'.isEmpty
      · rw [if_pos he] at hp'
        cases hp'
      · rw [if_neg he] at hp'
        rcases List.mem_singleton.mp hp' with rfl
        show (alLookup [(s.active_id + 1 + 1, ([] : List InnerEntry)),
            (s.active_id + 1, cfile')] (s.active_id + 1)).isSome
        rw [hlkF1]
        exact Option.isSome_some
    · intro p hp r hr
      rcases List.mem_cons.mp hp with rfl | hp₁
      · simp at hr
      · rcases List.mem_singleton.mp hp₁ with rfl
        exact hcv' r hr
    · rfl
  · -- recovery over the two remaining files rebuilds the new keydir
    by_cases he : hs'.isEmpty
    · have hsE : hs' = [] := List.isEmpty_iff.mp he
      have hinlen : (List.insertionSort (fun a b => a.1 ≤ b.1) s.keydir).length = 0 := by
        have h5 := hlen
        rw [hsE] at h5
        simp only [List.length_nil] at h5
        omega
      have hinput : List.insertionSort (fun a b => a.1 ≤ b.1) s.keydir = [] :=
        List.length_eq_zero.mp hinlen
      rw [hinput] at hloop
      have h1 : (some (([] : List InnerEntry), ([] : List (List Nat × KeyDirEntry)),
          ([] : List HintEntry))) = some (cfile', kd', hs') := hloop
      simp only [Option.some.injEq, Prod.mk.injEq] at h1
      obtain ⟨h2, h3, h4⟩ := h1
      subst h2
      subst h3
      subst h4
      refine ⟨⟨[], 0, 0⟩, ?_, fun k => rfl⟩
      show recoverIds [(s.active_id + 1 + 1, []), (s.active_id + 1, [])] []
          (List.insertionSort (· ≤ ·)
            (List.map Prod.fst [(s.active_id + 1 + 1, ([] : List InnerEntry)),
              (s.active_id + 1, ([] : List InnerEntry))]))
          ⟨[], 0, 0⟩ = .ok ⟨[], 0, 0⟩
      rw [show List.map Prod.fst [(s.active_id + 1 + 1, ([] : List InnerEntry)),
          (s.active_id + 1, ([] : List InnerEntry))]
          = [s.active_id + 1 + 1, s.active_id + 1] from rfl, sorted_pair_swap]
      simp only [recoverIds_cons, hlkF1, hlkF2, alLookup_nil, Option.getD_some]
      rfl
    · have hhe : (if hs'.isEmpty then ([] : List (Nat × List HintEntry))
          else [(s.active_id + 1, hs')]) = [(s.active_id + 1, hs')] := if_neg he
      have hlkH1 : alLookup [(s.active_id + 1, hs')] (s.active_id + 1) = some hs' := by
        rw [alLookup_cons, if_pos rfl]
      have hlkH2 : alLookup [(s.active_id + 1, hs')] (s.active_id + 1 + 1) = none := by
        rw [alLookup_cons, if_neg hne21]
        rfl
      have happ0 : applyHints (s.active_id + 1) [] hs' = kd' := happ [] rfl
      refine ⟨⟨kd', 0, 0⟩, ?_, fun k => rfl⟩
      show recoverIds [(s.active_id + 1 + 1, []), (s.active_id + 1, cfile')]
          (if hs'.isEmpty then [] else [(s.active_id + 1, hs')])
          (List.insertionSort (· ≤ ·)
            (List.map Prod.fst [(s.active_id + 1 + 1, ([] : List InnerEntry)),
              (s.active_id + 1, cfile')]))
          ⟨[], 0, 0⟩ = .ok ⟨kd', 0, 0⟩
      rw [hhe, show List.map Prod.fst [(s.active_id + 1 + 1, ([] : List InnerEntry)),
          (s.active_id + 1, cfile')] = [s.active_id + 1 + 1, s.active_id + 1] from rfl,
        sorted_pair_swap]
      simp only [recoverIds_cons, hlkH1, hlkH2, hlkF2, Option.getD_some]
      rw [happ0]
      rfl
  · intro k
    cases hkd : alLookup s.keydir k with
    | none =>
      have h1 : alLookup (List.insertionSort (fun a b => a.1 ≤ b.1) s.keydir) k = none := by
        rw [hsklk]
        exact hkd
      have h2 : alLookup kd' k = none := by
        rw [hnone k h1]
        rfl
      rw [Store.get_none h2, Store.get_none hkd]
    | some e₀ =>
      have h1 : alLookup (List.insertionSort (fun a b => a.1 ≤ b.1) s.keydir) k
          = some e₀ := by
        rw [hsklk]
        exact hkd
      obtain ⟨f, r, off, hfl, hrl, hkd'l, hcf, hsz, hkey, hval⟩ := hsome k e₀ h1
      obtain ⟨f₀, r₀, hf₀, hr₀, hsz₀, hkey₀, hval₀⟩ := hInv.keydir_ok k e₀ hkd
      have hne : e₀.segment_id ≠ s.active_id + 1 + 1 := by
        have hmem : e₀.segment_id ∈ s.files.map Prod.fst :=
          (alLookup_isSome_iff_mem _ _).mp (by rw [hf₀]; exact Option.isSome_some)
        have := ids_le_active hInv _ hmem
        omega
      rw [alLookup_alInsert_ne _ _ hne, hf₀] at hfl
      obtain rfl := Option.some.inj hfl
      rw [hr₀] at hrl
      obtain rfl := Option.some.inj hrl
      rw [Store.get_some_of_parts hkd hf₀ hr₀ hval₀]
      exact Store.get_some_of_parts hkd'l hlkF1 hcf hval
  · show kd'.length = s.keydir.length
    have h2 := congrArg List.length hkeys'
    rw [List.length_map, List.length_map] at h2
    rw [h2]
    exact hperm.length_eq
  · rfl
  · rfl
  · rfl
  · show List.insertionSort (· ≤ ·) (kd'.map Prod.fst)
        = List.insertionSort (· ≤ ·) (s.keydir.map Prod.fst)
    rw [hkeys']
    exact sortedKeys_eq_of_perm (hperm.map Prod.fst)

/-! ## Trace-level reasoning -/

/-- The `get` answer for key `k` after a trace of successful operations,
given its answer before the trace.  A successful `set k' v` makes it
`Ok (Some v)` when `k = k'`; a successful `remove k'` makes it `Ok None`;
`compact` and read-only operations leave it unchanged. -/
def traceGet (k : List Nat) (ops : List Op) (r : GetResult) : GetResult :=
  ops.foldl (fun acc op =>
    match op with
    | .set k' v _ => if k = k' then .ok (some v) else acc
    | .remove k' _ => if k = k' then .ok none else acc
    | _ => acc) r

/-- An operation that never stores the reserved tombstone as a value. -/
def OpNoTomb : Op → Prop
  | .set _ v _ => v ≠ REMOVE_TOMESTONE
  | _ => True

theorem traceGet_nil (k : List Nat) (r : GetResult) : traceGet k [] r = r := rfl

theorem traceGet_cons_set (k k' v : List Nat) (ts : Nat) (ops : List Op) (r : GetResult) :
    traceGet k (.set k' v ts :: ops) r
      = traceGet k ops (if k = k' then .ok (some v) else r) := rfl

theorem traceGet_cons_remove (k k' : List Nat) (ts : Nat) (ops : List Op) (r : GetResult) :
    traceGet k (.remove k' ts :: ops) r
      = traceGet k ops (if k = k' then .ok none else r) := rfl

theorem traceGet_cons_compact (k : List Nat) (ops : List Op) (r : GetResult) :
    traceGet k (.compact :: ops) r = traceGet k ops r := rfl

theorem runOps_cons_set (s : Store) (k v : List Nat) (ts : Nat) (rest : List Op) :
    runOps s (.set k v ts :: rest) =
      match s.set k v ts with
      | .ok s₁ => runOps s₁ rest
      | .error e => some (.error e) := by
  cases h : s.set k v ts <;> simp [runOps, applyOp, h]

theorem runOps_cons_remove (s : Store) (k : List Nat) (ts : Nat) (rest : List Op) :
    runOps s (.remove k ts :: rest) =
      match s.remove k ts with
      | .ok s₁ => runOps s₁ rest
      | .error e => some (.error e) := by
  cases h : s.remove k ts <;> simp [runOps, applyOp, h]

theorem runOps_cons_compact (s : Store) (rest : List Op) :
    runOps s (.compact :: rest) =
      match s.compact with
      | some s₁ => runOps s₁ rest
      | none => none := by
  cases h : s.compact <;> simp [runOps, applyOp, h]

theorem runOps_cons_readOnly (s : Store) (rest : List Op) :
    runOps s (.readOnly :: rest) = runOps s rest := rfl

/-- Every state reached by successful public operations from an
invariant-satisfying state satisfies the invariant, and its `get`
answers are the trace fold of the initial answers. -/
theorem runOps_inv_get :
    ∀ (ops : List Op) {s₀ s : Store}, StoreInv s₀ → runOps s₀ ops = some (.ok s) →
      StoreInv s ∧ ∀ k, s.get k = traceGet k ops (s₀.get k) := by
  intro ops
  induction ops with
  | nil =>
    intro s₀ s hInv hrun
    have h1 : (some (Except.ok s₀) : Option (Except TinkvError Store))
        = some (.ok s) := hrun
    simp only [Option.some.injEq, Except.ok.injEq] at h1
    subst h1
    exact ⟨hInv, fun k => rfl⟩
  | cons op rest ih =>
    intro s₀ s hInv hrun
    cases op with
    | set k v ts =>
      rw [runOps_cons_set] at hrun
      cases hset : s₀.set k v ts with
      | error e =>
        rw [hset] at hrun
        cases hrun
      | ok s₁ =>
        rw [hset] at hrun
        have hrun' : runOps s₁ rest = some (.ok s) := hrun
        by_cases hk : k.length ≤ s₀.config.max_key_size
        · by_cases hv : v.length ≤ s₀.config.max_value_size
          · obtain ⟨s₂, heq, hinv₂, hget₂, _, _, _, _, _⟩ :=
              @Store.set_ok_spec s₀ hInv k v ts hk hv
            rw [hset] at heq
            obtain rfl := (Except.ok.inj heq).symm
            obtain ⟨hinv₃, hget₃⟩ := ih hinv₂ hrun'
            refine ⟨hinv₃, fun k' => ?_⟩
            rw [hget₃ k', traceGet_cons_set]
            congr 1
            exact hget₂ k'
          · rw [Store.set_err_value (by omega) (by omega)] at hset
            cases hset
        · rw [Store.set_err_key (by omega)] at hset
          cases hset
    | remove k ts =>
      rw [runOps_cons_remove] at hrun
      cases hrem : s₀.remove k ts with
      | error e =>
        rw [hrem] at hrun
        cases hrun
      | ok s₁ =>
        rw [hrem] at hrun
        have hrun' : runOps s₁ rest = some (.ok s) := hrun
        cases hold : alLookup s₀.keydir k with
        | none =>
          rw [Store.remove_err hold] at hrem
          cases hrem
        | some old =>
          obtain ⟨s₂, heq, hinv₂, hget₂, _, _, _, _, _, _⟩ :=
            @Store.remove_ok_spec s₀ hInv k ts old hold
          rw [hrem] at heq
          obtain rfl := (Except.ok.inj heq).symm
          obtain ⟨hinv₃, hget₃⟩ := ih hinv₂ hrun'
          refine ⟨hinv₃, fun k' => ?_⟩
          rw [hget₃ k', traceGet_cons_remove]
          congr 1
          exact hget₂ k'
    | compact =>
      rw [runOps_cons_compact] at hrun
      obtain ⟨s₂, hc, hinv₂, _, hget₂, _, _, _, _, _⟩ := Store.compact_spec hInv
      rw [hc] at hrun
      have hrun' : runOps s₂ rest = some (.ok s) := hrun
      obtain ⟨hinv₃, hget₃⟩ := ih hinv₂ hrun'
      refine ⟨hinv₃, fun k' => ?_⟩
      rw [hget₃ k', traceGet_cons_compact]
      congr 1
      exact hget₂ k'
    | readOnly =>
      rw [runOps_cons_readOnly] at hrun
      exact ih hInv hrun

/-- Recovery equivalence survives every successful operation whose
written value is not the reserved tombstone. -/
theorem runOps_receq :
    ∀ (ops : List Op) {s₀ s : Store}, StoreInv s₀ → RecEq s₀ →
      (∀ op ∈ ops, OpNoTomb op) → runOps s₀ ops = some (.ok s) → RecEq s := by
  intro ops
  induction ops with
  | nil =>
    intro s₀ s hInv hrec hnt hrun
    have h1 : (some (Except.ok s₀) : Option (Except TinkvError Store))
        = some (.ok s) := hrun
    simp only [Option.some.injEq, Except.ok.injEq] at h1
    subst h1
    exact hrec
  | cons op rest ih =>
    intro s₀ s hInv hrec hnt hrun
    have hntR : ∀ op ∈ rest, OpNoTomb op := fun o ho => hnt o (List.mem_cons_of_mem _ ho)
    cases op with
    | set k v ts =>
      rw [runOps_cons_set] at hrun
      cases hset : s₀.set k v ts with
      | error e =>
        rw [hset] at hrun
        cases hrun
      | ok s₁ =>
        rw [hset] at hrun
        have hrun' : runOps s₁ rest = some (.ok s) := hrun
        have hvt : v ≠ REMOVE_TOMESTONE := hnt _ (List.mem_cons_self _ _)
        have hrec₁ : RecEq s₁ := receq_after_set hInv hrec hvt hset
        by_cases hk : k.length ≤ s₀.config.max_key_size
        · by_cases hv : v.length ≤ s₀.config.max_value_size
          · obtain ⟨s₂, heq, hinv₂, _, _, _, _, _, _⟩ :=
              @Store.set_ok_spec s₀ hInv k v ts hk hv
            rw [hset] at heq
            obtain rfl := (Except.ok.inj heq).symm
            exact ih hinv₂ hrec₁ hntR hrun'
          · rw [Store.set_err_value (by omega) (by omega)] at hset
            cases hset
        · rw [Store.set_err_key (by omega)] at hset
          cases hset
    | remove k ts =>
      rw [runOps_cons_remove] at hrun
      cases hrem : s₀.remove k ts with
      | error e =>
        rw [hrem] at hrun
        cases hrun
      | ok s₁ =>
        rw [hrem] at hrun
        have hrun' : runOps s₁ rest = some (.ok s) := hrun
        have hrec₁ : RecEq s₁ := receq_after_remove hInv hrec hrem
        cases hold : alLookup s₀.keydir k with
        | none =>
          rw [Store.remove_err hold] at hrem
          cases hrem
        | some old =>
          obtain ⟨s₂, heq, hinv₂, _, _, _, _, _, _, _⟩ :=
            @Store.remove_ok_spec s₀ hInv k ts old hold
          rw [hrem] at heq
          obtain rfl := (Except.ok.inj heq).symm
          exact ih hinv₂ hrec₁ hntR hrun'
    | compact =>
      rw [runOps_cons_compact] at hrun
      obtain ⟨s₂, hc, hinv₂, hrec₂, _, _, _, _, _, _⟩ := Store.compact_spec hInv
      rw [hc] at hrun
      have hrun' : runOps s₂ rest = some (.ok s) := hrun
      exact ih hinv₂ hrec₂ hntR hrun'
    | readOnly =>
      rw [runOps_cons_readOnly] at hrun
      exact ih hInv hrec hntR hrun

/-! ## Close, reopen and observational equivalence -/

theorem openStore_fields {files : List (Nat × List InnerEntry)}
    {hints : List (Nat × List HintEntry)} {cfg : Config} {s₂ : Store}
    (h : openStore files hints cfg = .ok s₂) :
    ∃ acc, recoverAll files hints = .ok acc ∧
      s₂.files = alInsert (listMax (files.map Prod.fst) + 1) [] files ∧
      s₂.keydir = acc.kd ∧
      s₂.active_id = listMax (files.map Prod.fst) + 1 ∧
      s₂.hints = hints ∧
      s₂.config = cfg := by
  cases hra : recoverAll files hints with
  | error e =>
    have h2 := h
    rw [openStore, hra] at h2
    cases h2
  | ok acc =>
    have h2 := h
    rw [openStore, hra] at h2
    have h3 := Except.ok.inj h2
    exact ⟨acc, rfl, by rw [← h3], by rw [← h3], by rw [← h3], by rw [← h3], by rw [← h3]⟩

/-- Clean close and reopen from any invariant-satisfying,
recovery-equivalent state: the reopened store answers every `get` and
the `keys` enumeration exactly as the closed one. -/
theorem reopen_spec {s : Store} (hInv : StoreInv s) (hrec : RecEq s) :
    ∃ s₂, s.reopen = .ok s₂ ∧ (∀ k, s₂.get k = s.get k) ∧ s₂.keys = s.keys := by
  obtain ⟨acc, hra, hlk⟩ := hrec
  have hra' : recoverAll s.closeDisk s.hints = .ok acc := by
    rw [recover_closeDisk hInv]
    exact hra
  cases hreo : openStore s.closeDisk s.hints s.config with
  | error e =>
    have h2 := hreo
    rw [openStore, hra'] at h2
    cases h2
  | ok s₂ =>
    obtain ⟨acc₂, hra₂, hfe, hkde, hae, hhe, hce⟩ := openStore_fields hreo
    rw [hra'] at hra₂
    obtain rfl := Except.ok.inj hra₂
    refine ⟨s₂, hreo, ?_, ?_⟩
    · intro k
      cases hkd : alLookup s.keydir k with
      | none =>
        have h2 : alLookup s₂.keydir k = none := by
          rw [hkde, hlk]
          exact hkd
        rw [Store.get_none h2, Store.get_none hkd]
      | some e =>
        obtain ⟨f, r, hf, hr, hsz, hkey, hval⟩ := hInv.keydir_ok k e hkd
        have h2 : alLookup s₂.keydir k = some e := by
          rw [hkde, hlk]
          exact hkd
        have hcd : alLookup s.closeDisk e.segment_id = some f := by
          by_cases hemp : s.activeFile = []
          · have hne : e.segment_id ≠ s.active_id := by
              intro hh
              rw [hh] at hf
              have hfa : f = s.activeFile := by
                rw [Store.activeFile, hf]
                rfl
              rw [hfa, hemp] at hr
              cases hr
            rw [Store.closeDisk, if_pos (List.isEmpty_iff.mpr hemp),
              alLookup_alRemove_ne _ hne]
            exact hf
          · rw [closeDisk_of_ne hemp]
            exact hf
        have hmem : e.segment_id ∈ s.closeDisk.map Prod.fst :=
          (alLookup_isSome_iff_mem _ _).mp (by rw [hcd]; exact Option.isSome_some)
        have hne2 : e.segment_id ≠ listMax (s.closeDisk.map Prod.fst) + 1 := by
          have := le_listMax hmem
          omega
        have hf₂ : alLookup s₂.files e.segment_id = some f := by
          rw [hfe, alLookup_alInsert_ne _ _ hne2]
          exact hcd
        rw [Store.get_some_of_parts h2 hf₂ hr hval,
          Store.get_some_of_parts hkd hf hr hval]
    · show List.insertionSort (· ≤ ·) (s₂.keydir.map Prod.fst)
          = List.insertionSort (· ≤ ·) (s.keydir.map Prod.fst)
      have hra'' : recoverIds s.closeDisk s.hints
          (List.insertionSort (· ≤ ·) (s.closeDisk.map Prod.fst)) ⟨[], 0, 0⟩
          = .ok acc := hra'
      have hnd₂ : (acc.kd.map Prod.fst).Nodup :=
        recoverIds_nodup _ _ _ hra'' (by simp)
      have hmemiff : ∀ a, a ∈ acc.kd.map Prod.fst ↔ a ∈ s.keydir.map Prod.fst := by
        intro a
        rw [← alLookup_isSome_iff_mem, ← alLookup_isSome_iff_mem, hlk]
      have hperm2 : (acc.kd.map Prod.fst).Perm (s.keydir.map Prod.fst) :=
        (List.perm_ext_iff_of_nodup hnd₂ hInv.keydir_nodup).mpr hmemiff
      rw [hkde]
      exact sortedKeys_eq_of_perm hperm2

/-! ## Concrete stores used as evaluation points -/

deriving instance DecidableEq for Except

set_option maxRecDepth 8192

/-- The store after `open` on an empty directory and `set [107] [118]`. -/
def exSetStore : Store :=
  { files := [(1, [InnerEntry.new [107] [118] 0])],
    hints := [],
    active_id := 1,
    keydir := [([107], ⟨1, 0, 38⟩)],
    stats := { size_of_stale_entries := 0, total_stale_entries := 0,
               total_active_entries := 1, total_data_files := 1,
               size_of_all_data_files := 38 },
    config := Config.init }

/-- The store after compacting `exSetStore`. -/
def exCompactStore : Store :=
  { files := [(3, []), (2, [InnerEntry.new [107] [118] 0])],
    hints := [(2, [⟨[107], 0, 38⟩])],
    active_id := 3,
    keydir := [([107], ⟨2, 0, 38⟩)],
    stats := { size_of_stale_entries := 0, total_stale_entries := 0,
               total_active_entries := 1, total_data_files := 2,
               size_of_all_data_files := 38 },
    config := Config.init }

/-- The store after `open` on an empty directory and a successful
`set [107] REMOVE_TOMESTONE`. -/
def tombSetStore : Store :=
  { files := [(1, [InnerEntry.new [107] REMOVE_TOMESTONE 0])],
    hints := [],
    active_id := 1,
    keydir := [([107], ⟨1, 0, 61⟩)],
    stats := { size_of_stale_entries := 0, total_stale_entries := 0,
               total_active_entries := 1, total_data_files := 1,
               size_of_all_data_files := 61 },
    config := Config.init }

/-- The store a clean close and reopen of `tombSetStore` produces. -/
def tombReopenStore : Store :=
  { files := [(1, [InnerEntry.new [107] REMOVE_TOMESTONE 0]), (2, [])],
    hints := [],
    active_id := 2,
    keydir := [],
    stats := { size_of_stale_entries := 61, total_stale_entries := 1,
               total_active_entries := 0, total_data_files := 2,
               size_of_all_data_files := 61 },
    config := Config.init }

/-- A store whose keydir references data file 5, which is not among the
open data files (the situation `Store::get` guards with `.expect`). -/
def badStoreC5 : Store :=
  { files := [(1, [])],
    hints := [],
    active_id := 1,
    keydir := [([97], ⟨5, 0, 40⟩)],
    stats := Stats.init,
    config := Config.init }

/-- Whether a `get` outcome is the `DataEntryCorrupted` error. -/
def GetResult.isCorruptedErr : GetResult → Bool
  | .err (.DataEntryCorrupted _ _ _) => true
  | _ => false

/-- A configuration with tiny size limits (the spec's S5 scenario). -/
def cfgSmall : Config := ⟨1024, 4, 4, false⟩

theorem mapM_eq_none : ∀ (l : List (List Nat)) (x : List Nat), x ∈ l →
    parse_file_id x = none → l.mapM parse_file_id = none := by
  intro l
  induction l with
  | nil =>
    intro x hx
    cases hx
  | cons a t ih =>
    intro x hx hfx
    rw [List.mapM_cons]
    rcases List.mem_cons.mp hx with rfl | hx₁
    · rw [hfx]
      rfl
    · cases hfa : parse_file_id a with
      | none => rfl
      | some b =>
        have ht := ih x hx₁ hfx
        rw [ht]
        rfl

/-! ## The claims -/

/-- Claim C1: on a store opened on a fresh directory, after any sequence
of successful public operations, `get k` answers exactly what the trace
dictates: `Ok (Some v)` where `v` is the argument of the last
`set k v`, unless a later `remove k` cancelled it (then `Ok None`), and
`Ok None` for a key never written.  `traceGet` folds exactly that
until-the-next-overwrite semantics. -/
theorem claim_C1 (cfg : Config) (ops : List Op) (s : Store)
    (hrun : runOps (openInit cfg) ops = some (.ok s)) (k : List Nat) :
    s.get k = traceGet k ops (GetResult.ok none) := by
  have h := (runOps_inv_get ops (storeInv_openInit cfg) hrun).2 k
  rw [h]
  rfl

theorem claim_C1_witness :
    runOps (openInit Config.init) [Op.set [107] [118] 0] = some (.ok exSetStore) ∧
    exSetStore.get [107] = traceGet [107] [Op.set [107] [118] 0] (GetResult.ok none) :=
  ⟨by decide, claim_C1 Config.init [Op.set [107] [118] 0] exSetStore (by decide) [107]⟩

/-- Claim C2 (amended): for every sequence of successful operations
none of which stores the reserved tombstone byte sequence as a value,
a clean close and reopen produces a store whose `get` answers and
`keys` enumeration are identical to the closed store's.  (The
tombstone restriction is necessary: see the counterexample.) -/
theorem claim_C2 (cfg : Config) (ops : List Op) (s : Store)
    (hnt : ∀ op ∈ ops, OpNoTomb op)
    (hrun : runOps (openInit cfg) ops = some (.ok s)) :
    ∃ s₂, s.reopen = .ok s₂ ∧ (∀ k, s₂.get k = s.get k) ∧ s₂.keys = s.keys :=
  reopen_spec (runOps_inv_get ops (storeInv_openInit cfg) hrun).1
    (runOps_receq ops (storeInv_openInit cfg) (receq_openInit cfg) hnt hrun)

theorem claim_C2_witness :
    runOps (openInit Config.init) [Op.set [107] [118] 0] = some (.ok exSetStore) ∧
    ∃ s₂, exSetStore.reopen = .ok s₂ ∧ (∀ k, s₂.get k = exSetStore.get k) ∧
      s₂.keys = exSetStore.keys :=
  ⟨by decide,
   claim_C2 Config.init [Op.set [107] [118] 0] exSetStore
     (by
       intro op h
       rw [List.mem_singleton] at h
       subst h
       show [118] ≠ REMOVE_TOMESTONE
       decide)
     (by decide)⟩

/-- Refutation of C2 as stated: `set [107] REMOVE_TOMESTONE` is a
successful operation, yet after a clean close and reopen the key is
gone — `get` flips from `Ok (Some tombstone)` to `Ok None` and `keys`
from `[[107]]` to `[]`. -/
theorem claim_C2_counterexample :
    runOps (openInit Config.init) [Op.set [107] REMOVE_TOMESTONE 0]
      = some (.ok tombSetStore) ∧
    tombSetStore.reopen = .ok tombReopenStore ∧
    tombSetStore.get [107] = .ok (some REMOVE_TOMESTONE) ∧
    tombReopenStore.get [107] = .ok none ∧
    tombSetStore.keys = [[107]] ∧
    tombReopenStore.keys = [] := by
  decide

/-- Claim C3: from any reachable store state, a successful `compact()`
preserves every `get` answer, and immediately afterwards
`total_stale_entries = 0`, `size_of_stale_entries = 0` and
`total_active_entries` equals the number of live keys. -/
theorem claim_C3 (cfg : Config) (ops : List Op) (s s₂ : Store)
    (hrun : runOps (openInit cfg) ops = some (.ok s))
    (hc : s.compact = some s₂) :
    (∀ k, s₂.get k = s.get k) ∧
    s₂.stats.total_stale_entries = 0 ∧
    s₂.stats.size_of_stale_entries = 0 ∧
    s₂.stats.total_active_entries = s₂.keydir.length := by
  have hInv := (runOps_inv_get ops (storeInv_openInit cfg) hrun).1
  obtain ⟨s₂', hc', hinv₂, _, hget, _, hst1, hst2, _, _⟩ := Store.compact_spec hInv
  rw [hc] at hc'
  obtain rfl := (Option.some.inj hc').symm
  exact ⟨hget, hst1, hst2, hinv₂.stats_active⟩

theorem claim_C3_witness :
    exSetStore.compact = some exCompactStore ∧
    exCompactStore.get [107] = exSetStore.get [107] ∧
    exCompactStore.stats.total_stale_entries = 0 ∧
    exCompactStore.stats.size_of_stale_entries = 0 ∧
    exCompactStore.stats.total_active_entries = exCompactStore.keydir.length :=
  ⟨by decide,
   (claim_C3 Config.init [Op.set [107] [118] 0] exSetStore exCompactStore
     (by decide) (by decide)).1 [107],
   (claim_C3 Config.init [Op.set [107] [118] 0] exSetStore exCompactStore
     (by decide) (by decide)).2.1,
   (claim_C3 Config.init [Op.set [107] [118] 0] exSetStore exCompactStore
     (by decide) (by decide)).2.2.1,
   (claim_C3 Config.init [Op.set [107] [118] 0] exSetStore exCompactStore
     (by decide) (by decide)).2.2.2⟩

/-- Claim C4 (amended): the checksum stored in a freshly written record
is the CRC-32/IEEE of `key ++ value` (not of the value bytes alone),
and `is_valid` — the check `get` and recovery apply — compares the
stored checksum against the CRC-32/IEEE recomputed over `key ++ value`. -/
theorem claim_C4 (k v : List Nat) (ts cs : Nat) :
    (InnerEntry.new k v ts).checksum = checksum (k ++ v) ∧
    ({ key := k, value := v, timestamp := ts, checksum := cs } : InnerEntry).is_valid
      = (cs == checksum (k ++ v)) ∧
    (InnerEntry.new k v ts).is_valid = true := by
  refine ⟨rfl, rfl, ?_⟩
  show ((InnerEntry.new k v ts).checksum == (InnerEntry.new k v ts).fresh_checksum) = true
  rw [show (InnerEntry.new k v ts).checksum = (InnerEntry.new k v ts).fresh_checksum from rfl]
  exact beq_self_eq_true _

/-- Refutation of C4 as stated: for the repository test's own record
(key `"key"`, value `"value"`), the stored checksum is 3327521766, the
CRC-32 of `key ++ value`, while the CRC-32 of the value alone is
494360628 — a different number. -/
theorem claim_C4_counterexample :
    (InnerEntry.new [107, 101, 121] [118, 97, 108, 117, 101] 0).checksum = 3327521766 ∧
    checksum ([107, 101, 121] ++ [118, 97, 108, 117, 101]) = 3327521766 ∧
    checksum [118, 97, 108, 117, 101] = 494360628 ∧
    ¬ (InnerEntry.new [107, 101, 121] [118, 97, 108, 117, 101] 0).checksum
      = checksum [118, 97, 108, 117, 101] := by
  decide

/-- Claim C5 (amended): for a key present in the keydir, `get` returns
`DataEntryCorrupted` exactly in the invalid-checksum case; when the
referenced segment id is missing from the open data files the source
panics on `.expect` (modelled as `panicMissingFile`) instead of
returning an error. -/
theorem claim_C5 {s : Store} {k : List Nat} {e : KeyDirEntry}
    (hkd : alLookup s.keydir k = some e) :
    (alLookup s.files e.segment_id = none →
      s.get k = .panicMissingFile e.segment_id) ∧
    (∀ f r, alLookup s.files e.segment_id = some f → entryAt f e.offset = some r →
      r.is_valid = false →
      s.get k = .err (.DataEntryCorrupted e.segment_id r.key e.offset)) := by
  constructor
  · intro hf
    simp [Store.get, hkd, hf]
  · intro f r hf hr hv
    simp [Store.get, hkd, hf, hr, hv]

theorem claim_C5_witness :
    alLookup badStoreC5.keydir [97] = some ⟨5, 0, 40⟩ ∧
    alLookup badStoreC5.files 5 = none ∧
    badStoreC5.get [97] = .panicMissingFile 5 :=
  ⟨by decide, by decide,
   (@claim_C5 badStoreC5 [97] ⟨5, 0, 40⟩ (by decide)).1 (by decide)⟩

/-- Refutation of C5 as stated: with the keydir referencing the absent
data file 5, `get` reaches the `.expect` panic, not the
`DataEntryCorrupted` error the claim promises. -/
theorem claim_C5_counterexample :
    badStoreC5.get [97] = .panicMissingFile 5 ∧
    (badStoreC5.get [97]).isCorruptedErr = false := by
  decide

/-- Claim C6: after every successful public operation from `open` on a
fresh directory, the counter `total_active_entries` equals the number
of keydir entries. -/
theorem claim_C6 (cfg : Config) (ops : List Op) (s : Store)
    (hrun : runOps (openInit cfg) ops = some (.ok s)) :
    s.stats.total_active_entries = s.keydir.length :=
  (runOps_inv_get ops (storeInv_openInit cfg) hrun).1.stats_active

theorem claim_C6_witness :
    runOps (openInit Config.init) [Op.set [107] [118] 0] = some (.ok exSetStore) ∧
    exSetStore.stats.total_active_entries = exSetStore.keydir.length :=
  ⟨by decide, claim_C6 Config.init [Op.set [107] [118] 0] exSetStore (by decide)⟩

/-- Claim C7: for a key present in the keydir, `remove` succeeds and
grows `size_of_stale_entries` by exactly the removed keydir entry's
size plus the encoded size of the appended tombstone record (which is
`key.length + 60` bytes) — the `old.size + entry.size` formula, not
`old.size` alone. -/
theorem claim_C7 (cfg : Config) (ops : List Op) (s : Store) (k : List Nat) (ts : Nat)
    (old : KeyDirEntry)
    (hrun : runOps (openInit cfg) ops = some (.ok s))
    (hold : alLookup s.keydir k = some old) :
    ∃ s₂, s.remove k ts = .ok s₂ ∧
      (InnerEntry.new k REMOVE_TOMESTONE ts).encodedSize = k.length + 60 ∧
      s₂.stats.size_of_stale_entries
        = s.stats.size_of_stale_entries + old.size
          + (InnerEntry.new k REMOVE_TOMESTONE ts).encodedSize := by
  have hInv := (runOps_inv_get ops (storeInv_openInit cfg) hrun).1
  obtain ⟨s₂, heq, _, _, _, _, _, _, _, hstale⟩ := @Store.remove_ok_spec s hInv k ts old hold
  refine ⟨s₂, heq, ?_, hstale⟩
  show 8 + k.length + 8 + 24 + 16 + 4 = k.length + 60
  omega

theorem claim_C7_witness :
    runOps (openInit Config.init) [Op.set [107] [118] 0] = some (.ok exSetStore) ∧
    alLookup exSetStore.keydir [107] = some ⟨1, 0, 38⟩ ∧
    ∃ s₂, exSetStore.remove [107] 1 = .ok s₂ ∧
      (InnerEntry.new [107] REMOVE_TOMESTONE 1).encodedSize = ([107] : List Nat).length + 60 ∧
      s₂.stats.size_of_stale_entries
        = exSetStore.stats.size_of_stale_entries + (38 : Nat)
          + (InnerEntry.new [107] REMOVE_TOMESTONE 1).encodedSize :=
  ⟨by decide, by decide,
   claim_C7 Config.init [Op.set [107] [118] 0] exSetStore [107] 1 ⟨1, 0, 38⟩
     (by decide) (by decide)⟩

/-- Claim C8: an oversized key yields `KeyIsTooLarge` and an oversized
value yields `ValueIsTooLarge`.  In the model `set` returns the bare
error — mirroring the source, whose size checks precede every mutation,
so a failed `set` leaves the files, keydir and stats untouched. -/
theorem claim_C8 (s : Store) (k v : List Nat) (ts : Nat) :
    (k.length > s.config.max_key_size → s.set k v ts = .error .KeyIsTooLarge) ∧
    (k.length ≤ s.config.max_key_size → v.length > s.config.max_value_size →
      s.set k v ts = .error .ValueIsTooLarge) :=
  ⟨fun h => Store.set_err_key h,
   fun h1 h2 => Store.set_err_value (by omega) h2⟩

theorem claim_C8_witness :
    ([1, 2, 3, 4, 5] : List Nat).length > (openInit cfgSmall).config.max_key_size ∧
    (openInit cfgSmall).set [1, 2, 3, 4, 5] [1] 0 = .error .KeyIsTooLarge ∧
    (openInit cfgSmall).set [1] [1, 2, 3, 4, 5] 0 = .error .ValueIsTooLarge :=
  ⟨by decide,
   (claim_C8 (openInit cfgSmall) [1, 2, 3, 4, 5] [1] 0).1 (by decide),
   (claim_C8 (openInit cfgSmall) [1] [1, 2, 3, 4, 5] 0).2 (by decide) (by decide)⟩

/-- Claim C9: storing the reserved tombstone byte sequence as an
ordinary value succeeds and is visible within the session, but a clean
close and reopen loses the key: recovery treats the record as a
deletion, so the persistence round-trip fails for exactly this value. -/
theorem claim_C9 {s : Store} (hInv : StoreInv s) (k : List Nat) (ts : Nat)
    (hk : k.length ≤ s.config.max_key_size)
    (hv : REMOVE_TOMESTONE.length ≤ s.config.max_value_size) :
    ∃ s₂, s.set k REMOVE_TOMESTONE ts = .ok s₂ ∧
      s₂.get k = .ok (some REMOVE_TOMESTONE) ∧
      ∃ s₃, s₂.reopen = .ok s₃ ∧ s₃.get k = .ok none := by
  obtain ⟨s₂, heq, hinv₂, hget₂, hfiles, hhints, hactive, hconfig, hkd⟩ :=
    @Store.set_ok_spec s hInv k REMOVE_TOMESTONE ts hk hv
  refine ⟨s₂, heq, ?_, ?_⟩
  · have h := hget₂ k
    rw [if_pos rfl] at h
    exact h
  · obtain ⟨acc₂, hra₂, hkdnone⟩ := recover_after_set_tomb hInv heq
    obtain ⟨af, hws⟩ := Store.write_spec hInv k REMOVE_TOMESTONE ts
    have hafne : s₂.activeFile ≠ [] := by
      rw [Store.activeFile, hfiles, hactive, hws.lkp]
      simp
    have hra₃ : recoverAll s₂.closeDisk s₂.hints = .ok acc₂ := by
      rw [closeDisk_of_ne hafne]
      exact hra₂
    cases hreo : openStore s₂.closeDisk s₂.hints s₂.config with
    | error e =>
      exfalso
      have h2 := hreo
      rw [openStore, hra₃] at h2
      cases h2
    | ok s₃ =>
      obtain ⟨acc₃, hra₄, _, hkde, _, _, _⟩ := openStore_fields hreo
      rw [hra₃] at hra₄
      obtain rfl := Except.ok.inj hra₄
      refine ⟨s₃, hreo, ?_⟩
      apply Store.get_none
      rw [hkde]
      exact hkdnone

theorem claim_C9_witness :
    ([107] : List Nat).length ≤ (openInit Config.init).config.max_key_size ∧
    REMOVE_TOMESTONE.length ≤ (openInit Config.init).config.max_value_size ∧
    ∃ s₂, (openInit Config.init).set [107] REMOVE_TOMESTONE 0 = .ok s₂ ∧
      s₂.get [107] = .ok (some REMOVE_TOMESTONE) ∧
      ∃ s₃, s₂.reopen = .ok s₃ ∧ s₃.get [107] = .ok none :=
  ⟨by decide, by decide,
   claim_C9 (storeInv_openInit Config.init) [107] 0 (by decide) (by decide)⟩

/-- Claim C10: a directory containing a file that matches
`*.tinkv.data` but whose name does not start with a parseable integer
id makes `open` panic (`DataFile::new`'s `expect` on `parse_file_id`),
modelled as `open_data_files` returning `none` rather than any
`Result`. -/
theorem claim_C10 (dir : List (List Nat)) (name : List Nat)
    (hmem : name ∈ dir) (hsuf : hasDataSuffix name = true)
    (hid : parse_file_id name = none) :
    open_data_files dir = none :=
  mapM_eq_none _ name (List.mem_filter.mpr ⟨hmem, hsuf⟩) hid

theorem claim_C10_witness :
    [97, 98, 99, 46, 116, 105, 110, 107, 118, 46, 100, 97, 116, 97]
      ∈ [[97, 98, 99, 46, 116, 105, 110, 107, 118, 46, 100, 97, 116, 97]] ∧
    hasDataSuffix [97, 98, 99, 46, 116, 105, 110, 107, 118, 46, 100, 97, 116, 97] = true ∧
    parse_file_id [97, 98, 99, 46, 116, 105, 110, 107, 118, 46, 100, 97, 116, 97] = none ∧
    open_data_files [[97, 98, 99, 46, 116, 105, 110, 107, 118, 46, 100, 97, 116, 97]] = none :=
  ⟨by decide, by decide, by decide,
   claim_C10 [[97, 98, 99, 46, 116, 105, 110, 107, 118, 46, 100, 97, 116, 97]]
     [97, 98, 99, 46, 116, 105, 110, 107, 118, 46, 100, 97, 116, 97]
     (by decide) (by decide) (by decide)⟩
